import Mathlib

/-!
Verification development for the emissary agent-orchestration framework.

The definitions below are a shallow embedding of the repository's core:
the two memory tier stores (`InMemoryMemoryStore`, `FileMemoryStore`), the
`MemoryManager` composing them, the tool contract (`Tool`,
`ToolRegistryImpl`), the built-in calculator tool, and the agent execution
loop (`ExecuteAgentUseCaseImpl.execute`).  Wall-clock instants are modelled
as natural numbers passed explicitly to each operation; JavaScript promise
rejections / thrown exceptions are modelled with `Except String`; the
JavaScript `Result` wrapper type of the sources is collapsed where an
operation cannot fail in the modelled fragment.
-/

namespace Emissary

/-- Memory types, from `domain/entities/memory.ts` (`MemoryType`). -/
inductive MemoryType where
  | shortTerm
  | longTerm
  | episodic
  | semantic
deriving DecidableEq, Repr

/-- Importance levels, from `domain/entities/memory.ts` (`MemoryImportance`):
numeric enum Low=1, Medium=2, High=3, Critical=4. -/
inductive MemoryImportance where
  | low
  | medium
  | high
  | critical
deriving DecidableEq, Repr

/-- The numeric value of an importance level; the TypeScript enum compares
by these numbers. -/
def MemoryImportance.toNat : MemoryImportance → Nat
  | .low => 1
  | .medium => 2
  | .high => 3
  | .critical => 4

/-- `MemoryMetadata` from `domain/entities/memory.ts`.  `tags` is optional in
the source with every producer passing a (possibly empty) array, so it is
modelled as a plain list.  The optional `source` field is unused by the
modelled operations and omitted. -/
structure MemoryMetadata where
  createdAt : Nat
  accessedAt : Nat
  accessCount : Nat
  importance : MemoryImportance
  tags : List String
deriving DecidableEq, Repr

/-- `MemoryEntry` from `domain/entities/memory.ts`.  `content` is an arbitrary
JSON value in the source; it is modelled by its serialized (JSON.stringify)
text, which is all the modelled operations inspect.  The field `type` of the
source is named `mtype` because `type` is reserved in Lean. -/
structure MemoryEntry where
  id : String
  mtype : MemoryType
  content : String
  metadata : MemoryMetadata
deriving DecidableEq, Repr

/-- `MemoryEntry.recordAccess`: bump `accessedAt` to the current instant and
increment `accessCount`. -/
def MemoryEntry.recordAccess (now : Nat) (e : MemoryEntry) : MemoryEntry :=
  { e with metadata := { e.metadata with accessedAt := now, accessCount := e.metadata.accessCount + 1 } }

/-- `MemoryQuery` from `domain/entities/memory.ts`; absent optional fields are
`none`. -/
structure MemoryQuery where
  mtype : Option MemoryType := none
  tags : Option (List String) := none
  minImportance : Option MemoryImportance := none
  maxAge : Option Nat := none
  limit : Option Nat := none
  searchText : Option String := none
deriving DecidableEq, Repr

/-- Decimal digit character for a digit value, as produced by JavaScript
string interpolation of a number. -/
def digitChar (d : Nat) : Char :=
  if d = 0 then '0' else if d = 1 then '1' else if d = 2 then '2'
  else if d = 3 then '3' else if d = 4 then '4' else if d = 5 then '5'
  else if d = 6 then '6' else if d = 7 then '7' else if d = 8 then '8' else '9'

/-- Decimal rendering of a natural number, fuel-indexed so that it reduces
by structural recursion (the fuel in `natDec` always suffices). -/
def natDecAux : Nat → Nat → List Char
  | 0, _ => []
  | fuel + 1, n =>
      if n < 10 then [digitChar n]
      else natDecAux fuel (n / 10) ++ [digitChar (n % 10)]

/-- Decimal rendering of a natural number (list of characters, most
significant first). -/
def natDec (n : Nat) : List Char :=
  natDecAux (n + 1) n

/-- Numeric value of a decimal character list (inverse of `natDec`). -/
def natDecVal (cs : List Char) : Nat :=
  cs.foldl (fun acc c => acc * 10 + (c.toNat - 48)) 0

/-- Store-assigned entry identifiers: `mem-<n>`, exactly the template string
`mem-${this.nextId++}` used by both store implementations. -/
def memId (n : Nat) : String :=
  "mem-" ++ String.mk (natDec n)

/-- Lowercased form of a string (`toLowerCase`), restricted to the ASCII data
the modelled operations handle. -/
def lowerStr (s : String) : String :=
  String.mk (s.toList.map Char.toLower)

/-- JavaScript `String.prototype.includes`: substring containment. -/
def strContains (hay needle : String) : Bool :=
  decide (needle.toList <:+: hay.toList)

/-- Descending order on last-access time, the comparator
`(a, b) => b.metadata.accessedAt - a.metadata.accessedAt` used by both
stores (JavaScript sort is stable; `List.insertionSort` with this relation
is the matching stable descending sort). -/
def accessedDesc (a b : MemoryEntry) : Prop :=
  b.metadata.accessedAt ≤ a.metadata.accessedAt

instance : DecidableRel accessedDesc :=
  fun a b => Nat.decLe _ _

instance : IsTotal MemoryEntry accessedDesc :=
  ⟨fun a b => Nat.le_total b.metadata.accessedAt a.metadata.accessedAt⟩

instance : IsTrans MemoryEntry accessedDesc :=
  ⟨fun _ _ _ h1 h2 => Nat.le_trans h2 h1⟩

/-- State of `InMemoryMemoryStore` (`in-memory-memory-store.ts`): the
entries of the backing `Map` in insertion order, plus the `nextId`
counter. -/
structure InMemState where
  entries : List MemoryEntry
  nextId : Nat
deriving DecidableEq, Repr

/-- A fresh `InMemoryMemoryStore`. -/
def InMemState.emptyStore : InMemState :=
  { entries := [], nextId := 1 }

namespace InMemoryMemoryStore

/-- `InMemoryMemoryStore.store`: assign a fresh id, stamp
`createdAt = accessedAt = now`, `accessCount = 0`, insert. -/
def store (now : Nat) (t : MemoryType) (content : String)
    (importance : MemoryImportance) (tags : List String) (st : InMemState) :
    MemoryEntry × InMemState :=
  let entry : MemoryEntry :=
    { id := memId st.nextId
      mtype := t
      content := content
      metadata :=
        { createdAt := now
          accessedAt := now
          accessCount := 0
          importance := importance
          tags := tags } }
  (entry, { entries := st.entries ++ [entry], nextId := st.nextId + 1 })

/-- `InMemoryMemoryStore.retrieve`: on a hit the shared entry object is
mutated by `recordAccess` and returned. -/
def retrieve (now : Nat) (id : String) (st : InMemState) :
    Option MemoryEntry × InMemState :=
  match st.entries.find? (fun e => e.id == id) with
  | some e =>
      (some (e.recordAccess now),
        { st with entries := st.entries.map (fun x => if x.id == id then x.recordAccess now else x) })
  | none => (none, st)

/-- The five filter stages of `InMemoryMemoryStore.query`, in source order.
JavaScript truthiness: a `maxAge` of 0 and an empty `searchText` skip their
filters, as does an empty `tags` array (`query.tags.length > 0`). -/
def filterType (q : MemoryQuery) (l : List MemoryEntry) : List MemoryEntry :=
  match q.mtype with
  | some t => l.filter (fun e => e.mtype == t)
  | none => l

def filterTags (q : MemoryQuery) (l : List MemoryEntry) : List MemoryEntry :=
  match q.tags with
  | some ts =>
      if ts.isEmpty then l
      else l.filter (fun e => ts.any (fun tag => e.metadata.tags.contains tag))
  | none => l

def filterImportance (q : MemoryQuery) (l : List MemoryEntry) : List MemoryEntry :=
  match q.minImportance with
  | some m => l.filter (fun e => decide (m.toNat ≤ e.metadata.importance.toNat))
  | none => l

def filterAge (now : Nat) (q : MemoryQuery) (l : List MemoryEntry) : List MemoryEntry :=
  match q.maxAge with
  | some a =>
      if a == 0 then l
      else l.filter (fun e => decide (now - e.metadata.createdAt ≤ a))
  | none => l

/-- Substring match of `searchText` against the lowercased serialized
content (`JSON.stringify(entry.content).toLowerCase()`). -/
def searchMatches (searchText : Option String) (e : MemoryEntry) : Bool :=
  match searchText with
  | some s => if s == "" then true else strContains (lowerStr e.content) (lowerStr s)
  | none => true

def filterSearch (q : MemoryQuery) (l : List MemoryEntry) : List MemoryEntry :=
  match q.searchText with
  | some s => if s == "" then l else l.filter (searchMatches (some s))
  | none => l

/-- `if (query.limit && query.limit > 0) results = results.slice(0, limit)`. -/
def applyLimit (q : MemoryQuery) (l : List MemoryEntry) : List MemoryEntry :=
  match q.limit with
  | some n => if 0 < n then l.take n else l
  | none => l

/-- `InMemoryMemoryStore.query`: filter by type, tags, minimum importance,
age and search text, sort by `accessedAt` descending, apply the limit, then
`recordAccess` every returned entry (which mutates the stored objects). -/
def query (now : Nat) (q : MemoryQuery) (st : InMemState) :
    List MemoryEntry × InMemState :=
  let selected :=
    applyLimit q
      (List.insertionSort accessedDesc
        (filterSearch q (filterAge now q (filterImportance q (filterTags q (filterType q st.entries))))))
  let ids := selected.map (fun e => e.id)
  (selected.map (MemoryEntry.recordAccess now),
    { st with entries := st.entries.map (fun e => if ids.contains e.id then e.recordAccess now else e) })

/-- `InMemoryMemoryStore.delete`: `Map.delete` returns whether the id was
present. -/
def delete (id : String) (st : InMemState) : Bool × InMemState :=
  (st.entries.any (fun e => e.id == id),
    { st with entries := st.entries.filter (fun e => !(e.id == id)) })

/-- The prune condition of both store implementations.  JavaScript
truthiness: `if (maxAge)` takes the age-aware branch only for a nonzero
`maxAge`; otherwise pruning is importance-only. -/
def shouldPrune (now : Nat) (maxAge : Option Nat) (minImportance : MemoryImportance)
    (e : MemoryEntry) : Bool :=
  match maxAge with
  | some m =>
      if m == 0 then decide (e.metadata.importance.toNat < minImportance.toNat)
      else decide (now - e.metadata.createdAt > m) &&
        decide (e.metadata.importance.toNat < minImportance.toNat)
  | none => decide (e.metadata.importance.toNat < minImportance.toNat)

/-- `InMemoryMemoryStore.prune`: delete every entry satisfying the prune
condition, returning the number removed. -/
def prune (now : Nat) (maxAge : Option Nat) (minImportance : MemoryImportance)
    (st : InMemState) : Nat × InMemState :=
  ((st.entries.filter (shouldPrune now maxAge minImportance)).length,
    { st with entries := st.entries.filter (fun e => !shouldPrune now maxAge minImportance e) })

end InMemoryMemoryStore

/-- State of `FileMemoryStore` (`file-memory-store.ts`) on the happy path:
the store keeps one `<id>.json` file per entry plus an `index.json` whose
records duplicate each entry's id, type, importance, tags and access
metadata.  Index and files are rewritten together on every modelled
operation, so the synchronized pair is modelled as a single entry list in
index order; filesystem failures and index corruption are outside the
modelled fragment. -/
structure FileState where
  entries : List MemoryEntry
  nextId : Nat
deriving DecidableEq, Repr

/-- A fresh `FileMemoryStore` over an empty directory. -/
def FileState.emptyStore : FileState :=
  { entries := [], nextId := 1 }

namespace FileMemoryStore

/-- `FileMemoryStore.store`: identical id assignment and metadata stamping
to the in-memory store; the entry file and index record are written. -/
def store (now : Nat) (t : MemoryType) (content : String)
    (importance : MemoryImportance) (tags : List String) (st : FileState) :
    MemoryEntry × FileState :=
  let entry : MemoryEntry :=
    { id := memId st.nextId
      mtype := t
      content := content
      metadata :=
        { createdAt := now
          accessedAt := now
          accessCount := 0
          importance := importance
          tags := tags } }
  (entry, { entries := st.entries ++ [entry], nextId := st.nextId + 1 })

/-- `FileMemoryStore.retrieve`: load the entry file, `recordAccess`, write
the updated entry and index back, return the updated entry; a missing file
yields `null`. -/
def retrieve (now : Nat) (id : String) (st : FileState) :
    Option MemoryEntry × FileState :=
  match st.entries.find? (fun e => e.id == id) with
  | some e =>
      (some (e.recordAccess now),
        { st with entries := st.entries.map (fun x => if x.id == id then x.recordAccess now else x) })
  | none => (none, st)

/-- Second phase of `FileMemoryStore.query`: for each already-limited index
id, `retrieve` the full entry (with its access side effect) and keep it only
if the search text matches the loaded content. -/
def queryLoop (now : Nat) (searchText : Option String) :
    List String → FileState → List MemoryEntry × FileState
  | [], st => ([], st)
  | id :: rest, st =>
      match retrieve now id st with
      | (some e, st1) =>
          let p := queryLoop now searchText rest st1
          if InMemoryMemoryStore.searchMatches searchText e then (e :: p.1, p.2) else p
      | (none, st1) => queryLoop now searchText rest st1

/-- `FileMemoryStore.query`: filter the index by type, tags, minimum
importance and age, sort by `accessedAt` descending and apply the limit,
all on index records; only then load each remaining entry and apply the
`searchText` filter to the loaded content. -/
def query (now : Nat) (q : MemoryQuery) (st : FileState) :
    List MemoryEntry × FileState :=
  let selected :=
    InMemoryMemoryStore.applyLimit q
      (List.insertionSort accessedDesc
        (InMemoryMemoryStore.filterAge now q
          (InMemoryMemoryStore.filterImportance q
            (InMemoryMemoryStore.filterTags q (InMemoryMemoryStore.filterType q st.entries)))))
  queryLoop now q.searchText (selected.map (fun e => e.id)) st

/-- `FileMemoryStore.delete`: unlink the entry file and drop the index
record; returns whether the file existed. -/
def delete (id : String) (st : FileState) : Bool × FileState :=
  (st.entries.any (fun e => e.id == id),
    { st with entries := st.entries.filter (fun e => !(e.id == id)) })

/-- `FileMemoryStore.prune`: same prune condition as the in-memory store,
applied to index records; every selected entry file is unlinked and counted
on the happy path. -/
def prune (now : Nat) (maxAge : Option Nat) (minImportance : MemoryImportance)
    (st : FileState) : Nat × FileState :=
  ((st.entries.filter (InMemoryMemoryStore.shouldPrune now maxAge minImportance)).length,
    { st with entries := st.entries.filter (fun e => !InMemoryMemoryStore.shouldPrune now maxAge minImportance e) })

end FileMemoryStore

/-- State of a `MemoryManager` (`memory-manager.ts`) as composed in
`src/index.ts`: one `InMemoryMemoryStore` as the short-term (volatile) tier
and one `FileMemoryStore` as the long-term (durable) tier. -/
structure ManagerState where
  shortTerm : InMemState
  longTerm : FileState
deriving DecidableEq, Repr

namespace MemoryManager

/-- `MemoryManager.retrieve`: try the short-term store first and return its
hit; otherwise consult the long-term store. -/
def retrieve (now : Nat) (id : String) (st : ManagerState) :
    Option MemoryEntry × ManagerState :=
  let (r1, s1) := InMemoryMemoryStore.retrieve now id st.shortTerm
  match r1 with
  | some e => (some e, { st with shortTerm := s1 })
  | none =>
      let (r2, l1) := FileMemoryStore.retrieve now id st.longTerm
      (r2, { shortTerm := s1, longTerm := l1 })

/-- `MemoryManager.delete`: delete from both stores; report success if
either contained the id. -/
def delete (id : String) (st : ManagerState) : Bool × ManagerState :=
  let (b1, s1) := InMemoryMemoryStore.delete id st.shortTerm
  let (b2, l1) := FileMemoryStore.delete id st.longTerm
  (b1 || b2, { shortTerm := s1, longTerm := l1 })

/-- The per-memory body of `MemoryManager.consolidate`: write an equivalent
long-term entry; only if that write succeeds, delete the short-term
original and count it.  `fails` is the environment oracle saying which
durable writes fail (the store call returns `err`). -/
def consolidateLoop (fails : String → Bool) (now : Nat) :
    List MemoryEntry → ManagerState → Nat × ManagerState
  | [], st => (0, st)
  | m :: rest, st =>
      if fails m.id then consolidateLoop fails now rest st
      else
        let l1 := (FileMemoryStore.store now .longTerm m.content
          m.metadata.importance m.metadata.tags st.longTerm).2
        let s1 := (InMemoryMemoryStore.delete m.id st.shortTerm).2
        let p := consolidateLoop fails now rest { shortTerm := s1, longTerm := l1 }
        (p.1 + 1, p.2)

/-- `MemoryManager.consolidate`: query the short-term store for entries of
type short-term at or above the configured consolidation importance
(default High), then move each to the long-term store, skipping (and
keeping in the volatile tier) any whose durable write fails. -/
def consolidate (fails : String → Bool) (consolidationImportance : MemoryImportance)
    (now : Nat) (st : ManagerState) : Nat × ManagerState :=
  let q :=
    InMemoryMemoryStore.query now
      { mtype := some .shortTerm, minImportance := some consolidationImportance }
      st.shortTerm
  consolidateLoop fails now q.1 { st with shortTerm := q.2 }

end MemoryManager

/-- JSON values as exchanged with tools, restricted to the scalar shapes
the modelled tools produce and consume. -/
inductive JVal where
  | null
  | str (s : String)
  | num (q : Rat)
  | jbool (b : Bool)
deriving DecidableEq, Repr

/-- `ToolParams`: a JSON object of named arguments (key insertion order
preserved, as in JavaScript). -/
def ToolParams : Type :=
  List (String × JVal)

instance : DecidableEq ToolParams :=
  inferInstanceAs (DecidableEq (List (String × JVal)))

/-- Look up a parameter by key (`params[key]`). -/
def ToolParams.get (params : ToolParams) (key : String) : Option JVal :=
  (params.find? (fun kv => kv.fst == key)).map Prod.snd

/-- `ToolResult` from `domain/entities/tool.ts`; the optional `metadata`
bag (only ever carrying a stack trace) is omitted. -/
structure ToolResult where
  success : Bool
  output : Option JVal := none
  error : Option String := none
deriving DecidableEq, Repr

/-- `ToolSchema`: the property-name set and required-field list are all the
validator consults, so per-field descriptions and types are dropped. -/
structure ToolSchema where
  properties : List String
  required : List String
deriving DecidableEq, Repr

/-- The `Tool` entity (`domain/entities/tool.ts`).  The executor is a
JavaScript async function that may reject/throw, modelled with
`Except String`. -/
structure Tool where
  name : String
  schema : ToolSchema
  executor : ToolParams → Except String ToolResult

namespace Tool

/-- The error list computed by `Tool.validate`: one message per missing
required field (in schema order), then one per supplied key outside the
schema's property set (in key order). -/
def validateErrors (schema : ToolSchema) (params : ToolParams) : List String :=
  let keys := params.map Prod.fst
  (schema.required.filter (fun r => !keys.contains r)).map
      (fun r => "Missing required parameter: " ++ r)
    ++ (keys.filter (fun k => !schema.properties.contains k)).map
      (fun k => "Unknown parameter: " ++ k)

/-- `Tool.execute`: validate first and short-circuit on failure with the
joined messages; otherwise run the executor, converting a thrown error into
a failure result. -/
def execute (t : Tool) (params : ToolParams) : ToolResult :=
  let validation := validateErrors t.schema params
  if validation.isEmpty then
    match t.executor params with
    | .ok r => r
    | .error msg => { success := false, error := some msg }
  else
    { success := false
      error := some ("Invalid parameters: " ++ String.intercalate ", " validation) }

end Tool

namespace ToolRegistryImpl

/-- The registry's `toolsByName` map: later registrations of the same name
overwrite earlier ones. -/
def getByName (reg : List Tool) (name : String) : Option Tool :=
  reg.reverse.find? (fun t => t.name == name)

/-- `ToolRegistryImpl.execute`: fail closed when the name is unregistered;
otherwise run `Tool.execute`, whose own boundary already converts executor
exceptions into failure results. -/
def execute (reg : List Tool) (name : String) (params : ToolParams) : ToolResult :=
  match getByName reg name with
  | none => { success := false, error := some ("Tool not found: " ++ name) }
  | some t => Tool.execute t params

end ToolRegistryImpl

/-- Characters accepted by the calculator's safety regex
`^[\d+\-*\/().\s]+$` (whitespace restricted to the ASCII characters the
modelled inputs contain). -/
def isCalcAllowedChar (c : Char) : Bool :=
  c.isDigit || c == '+' || c == '-' || c == '*' || c == '/' ||
  c == '(' || c == ')' || c == '.' ||
  c == ' ' || c == '\t' || c == '\n' || c == '\r'

/-- The calculator's character-class check: the regex requires at least one
character and every character in the allowed class. -/
def calcCharCheck (s : String) : Bool :=
  !s.isEmpty && s.toList.all isCalcAllowedChar

/-- Tokens of the arithmetic fragment the calculator can evaluate. -/
inductive CalcTok where
  | num (q : Rat)
  | plus
  | minus
  | star
  | slash
  | lparen
  | rparen
deriving DecidableEq, Repr

/-- Numeric value of a digit list. -/
def digitsVal (ds : List Char) : Nat :=
  ds.foldl (fun acc c => acc * 10 + (c.toNat - 48)) 0

/-- Lex one numeric literal (digits, optionally a dot and more digits);
a lone dot is a syntax error. -/
def lexNumber (cs : List Char) : Option (Rat × List Char) :=
  let (ip, rest1) := cs.span Char.isDigit
  match rest1 with
  | '.' :: rest2 =>
      let (fp, rest3) := rest2.span Char.isDigit
      if ip.isEmpty && fp.isEmpty then none
      else some ((digitsVal ip : Rat) + (digitsVal fp : Rat) / ((10 : Rat) ^ fp.length), rest3)
  | _ => if ip.isEmpty then none else some ((digitsVal ip : Rat), rest1)

/-- Tokenizer for expressions over the calculator's character class.
`++`, `--` and `**` are distinct JavaScript tokens that make these
expressions syntax errors or leave the modelled fragment, so they lex to
`none`; comment syntax (`//`, `/*`) is likewise outside the modelled
fragment.  No theorem below depends on inputs containing those sequences. -/
def tokenizeAux : Nat → List Char → Option (List CalcTok)
  | 0, _ => none
  | _, [] => some []
  | fuel + 1, c :: cs =>
      if c == ' ' || c == '\t' || c == '\n' || c == '\r' then tokenizeAux fuel cs
      else if c == '+' then
        match cs with
        | '+' :: _ => none
        | _ => (tokenizeAux fuel cs).map (fun ts => CalcTok.plus :: ts)
      else if c == '-' then
        match cs with
        | '-' :: _ => none
        | _ => (tokenizeAux fuel cs).map (fun ts => CalcTok.minus :: ts)
      else if c == '*' then
        match cs with
        | '*' :: _ => none
        | _ => (tokenizeAux fuel cs).map (fun ts => CalcTok.star :: ts)
      else if c == '/' then
        match cs with
        | '/' :: _ => none
        | '*' :: _ => none
        | _ => (tokenizeAux fuel cs).map (fun ts => CalcTok.slash :: ts)
      else if c == '(' then (tokenizeAux fuel cs).map (fun ts => CalcTok.lparen :: ts)
      else if c == ')' then (tokenizeAux fuel cs).map (fun ts => CalcTok.rparen :: ts)
      else if c.isDigit || c == '.' then
        match lexNumber (c :: cs) with
        | some (q, rest) => (tokenizeAux fuel rest).map (fun ts => CalcTok.num q :: ts)
        | none => none
      else none

def tokenize (s : String) : Option (List CalcTok) :=
  tokenizeAux (s.length + 1) s.toList

mutual

/-- `expr := term (('+' | '-') term)*` -/
def parseExprL (fuel : Nat) (ts : List CalcTok) : Option (Rat × List CalcTok) :=
  match fuel with
  | 0 => none
  | f + 1 =>
      match parseTermL f ts with
      | none => none
      | some (v, rest) => parseExprRest f v rest

def parseExprRest (fuel : Nat) (acc : Rat) (ts : List CalcTok) : Option (Rat × List CalcTok) :=
  match fuel with
  | 0 => none
  | f + 1 =>
      match ts with
      | CalcTok.plus :: rest =>
          match parseTermL f rest with
          | none => none
          | some (v, rest2) => parseExprRest f (acc + v) rest2
      | CalcTok.minus :: rest =>
          match parseTermL f rest with
          | none => none
          | some (v, rest2) => parseExprRest f (acc - v) rest2
      | _ => some (acc, ts)

/-- `term := unary (('*' | '/') unary)*` -/
def parseTermL (fuel : Nat) (ts : List CalcTok) : Option (Rat × List CalcTok) :=
  match fuel with
  | 0 => none
  | f + 1 =>
      match parseUnaryL f ts with
      | none => none
      | some (v, rest) => parseTermRest f v rest

def parseTermRest (fuel : Nat) (acc : Rat) (ts : List CalcTok) : Option (Rat × List CalcTok) :=
  match fuel with
  | 0 => none
  | f + 1 =>
      match ts with
      | CalcTok.star :: rest =>
          match parseUnaryL f rest with
          | none => none
          | some (v, rest2) => parseTermRest f (acc * v) rest2
      | CalcTok.slash :: rest =>
          match parseUnaryL f rest with
          | none => none
          | some (v, rest2) => parseTermRest f (acc / v) rest2
      | _ => some (acc, ts)

/-- `unary := ('+' | '-') unary | atom` -/
def parseUnaryL (fuel : Nat) (ts : List CalcTok) : Option (Rat × List CalcTok) :=
  match fuel with
  | 0 => none
  | f + 1 =>
      match ts with
      | CalcTok.plus :: rest => parseUnaryL f rest
      | CalcTok.minus :: rest =>
          (parseUnaryL f rest).map (fun vr => (-vr.fst, vr.snd))
      | _ => parseAtomL f ts

/-- `atom := number | '(' expr ')'` -/
def parseAtomL (fuel : Nat) (ts : List CalcTok) : Option (Rat × List CalcTok) :=
  match fuel with
  | 0 => none
  | f + 1 =>
      match ts with
      | CalcTok.num q :: rest => some (q, rest)
      | CalcTok.lparen :: rest =>
          match parseExprL f rest with
          | some (v, CalcTok.rparen :: rest2) => some (v, rest2)
          | _ => none
      | _ => none

end

/-- Evaluate a token stream as one whole expression.  Division is exact
rational division; the IEEE-754 artifacts of JavaScript numbers (rounding,
division by zero producing Infinity) are outside the modelled fragment and
untouched by the theorems below. -/
def evalCalcTokens (ts : List CalcTok) : Option Rat :=
  match parseExprL (4 * ts.length + 8) ts with
  | some (v, []) => some v
  | _ => none

/-- The value JavaScript evaluation produces for an expression string of the
modelled fragment, or `none` for a syntax error. -/
def evalCalcExpr (s : String) : Option Rat :=
  match tokenize s with
  | some ts => evalCalcTokens ts
  | none => none

/-- The calculator tool's executor body on an expression string: reject
anything failing the character-class check before evaluation; evaluate
otherwise, with a thrown evaluation error caught into a failure result
(the engine-specific message is abstracted as `SyntaxError`). -/
def calculatorExec (expression : String) : ToolResult :=
  if calcCharCheck expression then
    match evalCalcExpr expression with
    | some v => { success := true, output := some (JVal.num v) }
    | none => { success := false, error := some "SyntaxError" }
  else
    { success := false
      error := some "Invalid expression. Only numbers and basic operators are allowed." }

/-- Coercion of a JSON parameter to the string the calculator's regex test
sees (`String(params.expression)`); non-string scalars are coerced as
JavaScript does for the shapes that matter, and a missing parameter reads
as `undefined`. -/
def jsParamString (v : Option JVal) : String :=
  match v with
  | some (JVal.str s) => s
  | some JVal.null => "null"
  | some (JVal.jbool b) => if b then "true" else "false"
  | some (JVal.num _) => ""
  | none => "undefined"

/-- `createCalculatorTool` from `built-in-tools.ts`: schema with a single
required `expression` property and the executor above (never throws). -/
def createCalculatorTool : Tool :=
  { name := "calculator"
    schema := { properties := ["expression"], required := ["expression"] }
    executor := fun params => .ok (calculatorExec (jsParamString (params.get "expression"))) }

/-- `TaskStatus` from `domain/entities/task.ts`. -/
inductive TaskStatus where
  | pending
  | running
  | completed
  | failed
  | cancelled
deriving DecidableEq, Repr

/-- `TaskResult` from `domain/entities/task.ts` (metadata bag omitted). -/
structure TaskResult where
  success : Bool
  output : Option String := none
  error : Option String := none
deriving DecidableEq, Repr

/-- The status/result portion of the `Task` entity; description, context,
constraints and timestamps are carried unchanged through the modelled
execution and omitted. -/
structure Task where
  status : TaskStatus
  result : Option TaskResult := none
deriving DecidableEq, Repr

/-- `Task.updateStatus`. -/
def Task.updateStatus (s : TaskStatus) (t : Task) : Task :=
  { t with status := s }

/-- `Task.setResult`: stores the result and re-derives the terminal status
from its success flag. -/
def Task.setResult (r : TaskResult) (t : Task) : Task :=
  { t with result := some r
           status := if r.success then TaskStatus.completed else TaskStatus.failed }

/-- A tool call solicited by the model (`response.toolCalls[i]`). -/
structure ToolCallReq where
  name : String
  args : ToolParams
deriving DecidableEq

/-- The model gateway's non-streaming response, restricted to the fields
the loop consults (`content`, `toolCalls`). -/
structure LLMResponse where
  content : String
  toolCalls : List ToolCallReq
deriving DecidableEq

/-- An `Iteration` record from `execute-agent.port.ts`; the wall-clock
`timestamp` field is not modelled. -/
structure Iteration where
  number : Nat
  thought : String
  action : String
  actionInput : ToolParams
  observation : String
deriving DecidableEq

/-- `JSON.stringify` for the scalar JSON shapes the modelled tools emit
(string escaping beyond quoting is outside the modelled fragment). -/
def stringifyJVal : JVal → String
  | JVal.null => "null"
  | JVal.str s => "\"" ++ s ++ "\""
  | JVal.num q => if q.den = 1 then toString q.num else toString q.num ++ "/" ++ toString q.den
  | JVal.jbool b => if b then "true" else "false"

/-- The observation text recorded for a tool result:
`JSON.stringify(output)` on success, `Error: <message>` on failure. -/
def observationOf (r : ToolResult) : String :=
  if r.success then
    match r.output with
    | some v => stringifyJVal v
    | none => "undefined"
  else
    "Error: " ++ (match r.error with | some e => e | none => "undefined")

/-- One execution's response as surfaced by
`ExecuteAgentUseCaseImpl.execute` (execution id and timing metadata
omitted). -/
structure ExecuteAgentResponse where
  success : Bool
  output : Option String
  error : Option String
  iterations : List Iteration
deriving DecidableEq

/-- The agent loop of `ExecuteAgentUseCaseImpl.execute`, lines 79-169.
`llm` is the model-gateway oracle giving iteration `i` its response (or a
thrown infrastructure error); because the loop is deterministic, the
message list sent to the gateway is a function of the iteration index, so
the oracle is indexed by it.  `remaining` counts the loop iterations still
allowed (`maxIterations - iterationCount`), `k` the iterations already run,
`acc` the accumulated Iteration records.  The memory-store injection is
optional in the source; the modelled configuration runs without one.
Returns `(completed, finalOutput, iterations)`. -/
def agentLoop (llm : Nat → Except String LLMResponse) (reg : List Tool) :
    Nat → Nat → List Iteration → Except String (Bool × Option String × List Iteration)
  | 0, _, acc => .ok (false, none, acc)
  | remaining + 1, k, acc =>
      match llm (k + 1) with
      | .error e => .error e
      | .ok resp =>
          match resp.toolCalls with
          | [] =>
              .ok (true, some resp.content,
                acc ++ [{ number := k + 1
                          thought := resp.content
                          action := "final_answer"
                          actionInput := []
                          observation := resp.content }])
          | tc :: _ =>
              let toolResult := ToolRegistryImpl.execute reg tc.name tc.args
              agentLoop llm reg remaining (k + 1)
                (acc ++ [{ number := k + 1
                           thought := resp.content
                           action := tc.name
                           actionInput := tc.args
                           observation := observationOf toolResult }])

/-- `ExecuteAgentUseCaseImpl.execute`: run the loop, then mark the task and
build the response.  On iteration-bound exhaustion the task is failed with
the fixed message and the response carries `error` plus every accumulated
Iteration record; an exception thrown inside an iteration propagates to the
outer catch, which returns only `err(error)` — the task's final state and
the response (with its iterations) are produced only on the normal path. -/
def executeAgent (llm : Nat → Except String LLMResponse) (reg : List Tool)
    (maxIterations : Nat) : Except String (ExecuteAgentResponse × Task) :=
  let task : Task := Task.updateStatus TaskStatus.running { status := TaskStatus.pending }
  match agentLoop llm reg maxIterations 0 [] with
  | .error e => .error e
  | .ok (completed, finalOutput, iterations) =>
      let finalTask :=
        if completed then
          Task.setResult { success := true, output := finalOutput }
            (Task.updateStatus TaskStatus.completed task)
        else
          Task.setResult
            { success := false, error := some "Maximum iterations reached without completion" }
            (Task.updateStatus TaskStatus.failed task)
      .ok ({ success := completed
             output := finalOutput
             error := if completed then none else some "Maximum iterations reached"
             iterations := iterations }, finalTask)

/-- One store/retrieve/query operation against a memory tier store, for
stating access-metadata invariants over operation sequences. -/
inductive MemOp where
  | storeOp (mtype : MemoryType) (content : String)
      (importance : MemoryImportance) (tags : List String)
  | retrieveOp (id : String)
  | queryOp (q : MemoryQuery)

/-- The state after one operation on an `InMemoryMemoryStore`. -/
def stepOp (now : Nat) (op : MemOp) (st : InMemState) : InMemState :=
  match op with
  | .storeOp t c i tg => (InMemoryMemoryStore.store now t c i tg st).2
  | .retrieveOp id => (InMemoryMemoryStore.retrieve now id st).2
  | .queryOp q => (InMemoryMemoryStore.query now q st).2

/-- Run a timed operation sequence. -/
def runOps : List (Nat × MemOp) → InMemState → InMemState
  | [], st => st
  | (now, op) :: rest, st => runOps rest (stepOp now op st)

/-- Whether one operation hits the entry `id`: a `retrieve` hit, or
membership in a query's returned list. -/
def opHits (id : String) (now : Nat) (op : MemOp) (st : InMemState) : Nat :=
  match op with
  | .storeOp _ _ _ _ => 0
  | .retrieveOp i => if i == id && st.entries.any (fun e => e.id == id) then 1 else 0
  | .queryOp q =>
      if ((InMemoryMemoryStore.query now q st).1.map (fun e => e.id)).contains id then 1 else 0

/-- Total retrieve/query hits on `id` along a timed operation sequence. -/
def traceHits (id : String) : List (Nat × MemOp) → InMemState → Nat
  | [], _ => 0
  | (now, op) :: rest, st => opHits id now op st + traceHits id rest (stepOp now op st)

/-- The times in a trace are non-decreasing and bounded below by `t`. -/
def TimesChain : Nat → List (Nat × MemOp) → Prop
  | _, [] => True
  | t, (now, _) :: rest => t ≤ now ∧ TimesChain now rest

/-- Well-formedness of an `InMemoryMemoryStore` state at watermark time
`t`: ids are distinct, every id was minted below the current counter (so
future ids are fresh), and access metadata respects `t`.  These hold for
every state reachable from `InMemState.emptyStore`. -/
structure WFMem (t : Nat) (st : InMemState) : Prop where
  nodup : (st.entries.map MemoryEntry.id).Nodup
  fresh : ∀ e ∈ st.entries, ∃ k, e.id = memId k ∧ k < st.nextId
  created_le_accessed : ∀ e ∈ st.entries, e.metadata.createdAt ≤ e.metadata.accessedAt
  accessed_le : ∀ e ∈ st.entries, e.metadata.accessedAt ≤ t

/-! Spec-side predicates.  Each follows the specification's wording (with
JavaScript-truthiness edge readings made explicit) and is compared against
the corresponding code pipeline by the theorems below. -/

/-- Spec predicate: type equality, when a type filter is supplied. -/
def typeOk (q : MemoryQuery) (e : MemoryEntry) : Bool :=
  match q.mtype with
  | some t => e.mtype == t
  | none => true

/-- Spec predicate: the entry shares at least one tag with the supplied
(nonempty) tag list. -/
def tagsOk (q : MemoryQuery) (e : MemoryEntry) : Bool :=
  match q.tags with
  | some ts =>
      if ts.isEmpty then true
      else ts.any (fun tag => e.metadata.tags.contains tag)
  | none => true

/-- Spec predicate: importance at or above the supplied minimum. -/
def impOk (q : MemoryQuery) (e : MemoryEntry) : Bool :=
  match q.minImportance with
  | some m => decide (m.toNat ≤ e.metadata.importance.toNat)
  | none => true

/-- Spec predicate: entry age at most the supplied (nonzero) maximum. -/
def ageOk (now : Nat) (q : MemoryQuery) (e : MemoryEntry) : Bool :=
  match q.maxAge with
  | some a => if a == 0 then true else decide (now - e.metadata.createdAt ≤ a)
  | none => true

/-- The conjunction of the metadata predicates (everything except search
text) of a memory query. -/
def matchesQueryMeta (now : Nat) (q : MemoryQuery) (e : MemoryEntry) : Bool :=
  typeOk q e && (tagsOk q e && (impOk q e && ageOk now q e))

/-- The conjunction of all supplied query predicates. -/
def matchesQuery (now : Nat) (q : MemoryQuery) (e : MemoryEntry) : Bool :=
  matchesQueryMeta now q e && InMemoryMemoryStore.searchMatches q.searchText e

/-- The prune condition exactly as the claim states it: maxAge supplied
(any value) enables the age conjunct, maxAge absent means importance-only
pruning. -/
def ClaimPruneStated (now : Nat) (maxAge : Option Nat) (minImportance : MemoryImportance)
    (e : MemoryEntry) : Prop :=
  ((∃ m, maxAge = some m ∧ now - e.metadata.createdAt > m) ∧
      e.metadata.importance.toNat < minImportance.toNat) ∨
  (maxAge = none ∧ e.metadata.importance.toNat < minImportance.toNat)

/-- The amended prune condition: a supplied maxAge of 0 is falsy in
JavaScript and behaves exactly like an absent maxAge. -/
def ClaimPruneAmended (now : Nat) (maxAge : Option Nat) (minImportance : MemoryImportance)
    (e : MemoryEntry) : Prop :=
  ((∃ m, maxAge = some m ∧ m ≠ 0 ∧ now - e.metadata.createdAt > m) ∧
      e.metadata.importance.toNat < minImportance.toNat) ∨
  ((maxAge = none ∨ maxAge = some 0) ∧ e.metadata.importance.toNat < minImportance.toNat)

/-- The ids of the memories whose durable write succeeds during a
consolidation pass. -/
def nonFailingIds (fails : String → Bool) (ms : List MemoryEntry) : List String :=
  (ms.filter (fun m => !fails m.id)).map (fun m => m.id)

/-! Concrete fixtures used by witness and counterexample theorems. -/

/-- A short-term entry of high importance. -/
def entryShortHighA : MemoryEntry :=
  { id := memId 1, mtype := .shortTerm, content := "fact-a"
    metadata := { createdAt := 0, accessedAt := 3, accessCount := 0, importance := .high, tags := ["a"] } }

/-- A second short-term entry of critical importance. -/
def entryShortCritB : MemoryEntry :=
  { id := memId 2, mtype := .shortTerm, content := "fact-b"
    metadata := { createdAt := 1, accessedAt := 4, accessCount := 2, importance := .critical, tags := ["b"] } }

/-- An episodic entry of high importance (above the consolidation
threshold but not of type short-term). -/
def entryEpisodicHigh : MemoryEntry :=
  { id := memId 1, mtype := .episodic, content := "tool-run"
    metadata := { createdAt := 0, accessedAt := 0, accessCount := 0, importance := .high, tags := ["tool"] } }

/-- Manager state holding one high-importance episodic entry in the
volatile tier and nothing durable. -/
def mgrStateEpisodic : ManagerState :=
  { shortTerm := { entries := [entryEpisodicHigh], nextId := 2 }
    longTerm := FileState.emptyStore }

/-- Manager state with two consolidation-eligible short-term entries. -/
def mgrStateConsol : ManagerState :=
  { shortTerm := { entries := [entryShortHighA, entryShortCritB], nextId := 3 }
    longTerm := FileState.emptyStore }

/-- Durable-write failure oracle that fails exactly the second entry. -/
def failsOnB : String → Bool :=
  fun s => s == memId 2

/-- A long-term entry whose id collides with `entryShortHighA`. -/
def entryLongSameId : MemoryEntry :=
  { id := memId 1, mtype := .longTerm, content := "durable-one"
    metadata := { createdAt := 0, accessedAt := 0, accessCount := 0, importance := .medium, tags := [] } }

/-- Manager state in which the id `mem-1` denotes distinct entries in the
two tiers. -/
def mgrStateShadow : ManagerState :=
  { shortTerm := { entries := [entryShortHighA], nextId := 2 }
    longTerm := { entries := [entryLongSameId], nextId := 2 } }

/-- File-store entry whose serialized content contains `apple`. -/
def fentryApple : MemoryEntry :=
  { id := memId 1, mtype := .longTerm, content := "\"apple pie\""
    metadata := { createdAt := 0, accessedAt := 10, accessCount := 0, importance := .medium, tags := [] } }

/-- File-store entry whose serialized content does not contain `apple`,
accessed more recently than `fentryApple`. -/
def fentryBanana : MemoryEntry :=
  { id := memId 2, mtype := .longTerm, content := "\"banana split\""
    metadata := { createdAt := 0, accessedAt := 20, accessCount := 0, importance := .medium, tags := [] } }

/-- Two-entry file store for the query counterexample. -/
def fStateAB : FileState :=
  { entries := [fentryApple, fentryBanana], nextId := 3 }

/-- The same two entries in an in-memory store. -/
def mStateAB : InMemState :=
  { entries := [fentryApple, fentryBanana], nextId := 3 }

/-- A query for `apple` limited to one result. -/
def queryApple : MemoryQuery :=
  { searchText := some "apple", limit := some 1 }

/-- A low-importance entry created at instant 5. -/
def entryLowFresh : MemoryEntry :=
  { id := memId 1, mtype := .shortTerm, content := "scratch"
    metadata := { createdAt := 5, accessedAt := 5, accessCount := 0, importance := .low, tags := [] } }

/-- One-entry store holding `entryLowFresh`. -/
def mStateLow : InMemState :=
  { entries := [entryLowFresh], nextId := 2 }

/-- A tool whose executor always throws. -/
def throwingTool : Tool :=
  { name := "boomtool"
    schema := { properties := ["x"], required := [] }
    executor := fun _ => .error "kaboom" }

/-- A model oracle that always requests a tool call. -/
def llmAlwaysTool : Nat → Except String LLMResponse :=
  fun _ => .ok { content := "use a tool", toolCalls := [{ name := "echo", args := [("message", JVal.str "hi")] }] }

/-- A model oracle whose first response requests a tool call and whose
second call throws an infrastructure error. -/
def llmThenBoom : Nat → Except String LLMResponse :=
  fun i =>
    if i == 1 then
      .ok { content := "step one", toolCalls := [{ name := "calculator", args := [("expression", JVal.str "1+1")] }] }
    else .error "boom"

/-- Entry used by the access-metadata witness. -/
def entryAccess : MemoryEntry :=
  { id := memId 1, mtype := .shortTerm, content := "\"note\""
    metadata := { createdAt := 2, accessedAt := 3, accessCount := 1, importance := .medium, tags := [] } }

/-- One-entry store for the access-metadata witness. -/
def mStateAccess : InMemState :=
  { entries := [entryAccess], nextId := 2 }

/-- Retrieve-then-query trace over `mStateAccess`. -/
def traceAccess : List (Nat × MemOp) :=
  [(5, MemOp.retrieveOp (memId 1)), (7, MemOp.queryOp { limit := some 3 })]

theorem digitChar_val {d : Nat} (h : d < 10) : (digitChar d).toNat - 48 = d := by
  interval_cases d <;> rfl

theorem natDecVal_append (cs : List Char) (c : Char) :
    natDecVal (cs ++ [c]) = natDecVal cs * 10 + (c.toNat - 48) := by
  simp [natDecVal, List.foldl_append]

theorem natDecVal_natDecAux (fuel n : Nat) (h : n < fuel) :
    natDecVal (natDecAux fuel n) = n := by
  induction fuel generalizing n with
  | zero => omega
  | succ f ih =>
    rw [natDecAux]
    split
    case isTrue h10 =>
      simp [natDecVal, digitChar_val h10]
    case isFalse h10 =>
      rw [natDecVal_append, ih (n / 10) (by omega),
        digitChar_val (Nat.mod_lt _ (by omega))]
      omega

theorem natDecVal_natDec (n : Nat) : natDecVal (natDec n) = n :=
  natDecVal_natDecAux (n + 1) n (Nat.lt_succ_self n)

theorem natDec_injective : Function.Injective natDec := by
  intro a b hab
  have := natDecVal_natDec a
  rw [hab, natDecVal_natDec] at this
  omega

theorem memId_injective : Function.Injective memId := by
  intro a b hab
  have hdata : ("mem-" ++ String.mk (natDec a)).data = ("mem-" ++ String.mk (natDec b)).data := by
    rw [show ("mem-" ++ String.mk (natDec a)) = memId a from rfl, hab, memId]
  simp only [String.data_append] at hdata
  exact natDec_injective (List.append_cancel_left hdata)

@[simp] theorem recordAccess_id (now : Nat) (e : MemoryEntry) :
    (e.recordAccess now).id = e.id := rfl

@[simp] theorem recordAccess_mtype (now : Nat) (e : MemoryEntry) :
    (e.recordAccess now).mtype = e.mtype := rfl

@[simp] theorem recordAccess_content (now : Nat) (e : MemoryEntry) :
    (e.recordAccess now).content = e.content := rfl

@[simp] theorem recordAccess_createdAt (now : Nat) (e : MemoryEntry) :
    (e.recordAccess now).metadata.createdAt = e.metadata.createdAt := rfl

@[simp] theorem recordAccess_accessedAt (now : Nat) (e : MemoryEntry) :
    (e.recordAccess now).metadata.accessedAt = now := rfl

@[simp] theorem recordAccess_accessCount (now : Nat) (e : MemoryEntry) :
    (e.recordAccess now).metadata.accessCount = e.metadata.accessCount + 1 := rfl

@[simp] theorem recordAccess_importance (now : Nat) (e : MemoryEntry) :
    (e.recordAccess now).metadata.importance = e.metadata.importance := rfl

@[simp] theorem recordAccess_tags (now : Nat) (e : MemoryEntry) :
    (e.recordAccess now).metadata.tags = e.metadata.tags := rfl

theorem find?_id_map_of_preserved {f : MemoryEntry → MemoryEntry}
    (hf : ∀ e, (f e).id = e.id) (l : List MemoryEntry) (id : String) :
    (l.map f).find? (fun e => e.id == id) = (l.find? (fun e => e.id == id)).map f := by
  rw [List.find?_map]
  have hp : ((fun e : MemoryEntry => e.id == id) ∘ f) = (fun e : MemoryEntry => e.id == id) := by
    funext e
    simp [Function.comp, hf e]
  rw [hp]

theorem find?_id_eq_self {l : List MemoryEntry} {x : MemoryEntry}
    (hnd : (l.map MemoryEntry.id).Nodup) (hx : x ∈ l) :
    l.find? (fun e => e.id == x.id) = some x := by
  induction l with
  | nil => cases hx
  | cons y ys ih =>
    simp only [List.map_cons, List.nodup_cons] at hnd
    rcases List.mem_cons.mp hx with h | h
    · subst h
      simp [List.find?]
    · rw [List.find?]
      have hne : ¬ (y.id == x.id) = true := by
        intro hbeq
        exact hnd.1 (by
          have : y.id = x.id := by simpa using hbeq
          rw [this]
          exact List.mem_map_of_mem MemoryEntry.id h)
      simp only [hne]
      exact ih hnd.2 h

theorem shouldPrune_iff_amended (now : Nat) (maxAge : Option Nat)
    (minImp : MemoryImportance) (e : MemoryEntry) :
    InMemoryMemoryStore.shouldPrune now maxAge minImp e = true ↔
      ClaimPruneAmended now maxAge minImp e := by
  cases maxAge with
  | none => simp [InMemoryMemoryStore.shouldPrune, ClaimPruneAmended]
  | some m =>
    by_cases hm : m = 0
    · subst hm
      simp [InMemoryMemoryStore.shouldPrune, ClaimPruneAmended]
    · simp [InMemoryMemoryStore.shouldPrune, ClaimPruneAmended, hm]

/-- C3: `ToolRegistryImpl.execute` never lets an exception cross its
boundary: an unregistered name yields the closed `Tool not found` failure
result, and an exception thrown by a registered tool's executor (on
parameters that reach it) is converted into a `success := false` result
carrying the thrown message.  Exceptions are modelled by the `Except`
codomain of executors; `execute` itself is a total function into
`ToolResult`. -/
theorem c3_tool_invoker_never_throws (reg : List Tool) (name : String) (params : ToolParams) :
    (ToolRegistryImpl.getByName reg name = none →
      ToolRegistryImpl.execute reg name params =
        { success := false, output := none, error := some ("Tool not found: " ++ name) }) ∧
    (∀ t msg, ToolRegistryImpl.getByName reg name = some t →
      Tool.validateErrors t.schema params = [] →
      t.executor params = Except.error msg →
      ToolRegistryImpl.execute reg name params =
        { success := false, output := none, error := some msg }) := by
  constructor
  · intro h
    simp [ToolRegistryImpl.execute, h]
  · intro t msg ht hv he
    simp [ToolRegistryImpl.execute, ht, Tool.execute, hv, he]

theorem c3_tool_invoker_never_throws_witness :
    ToolRegistryImpl.execute [throwingTool] "nope" [] =
      { success := false, output := none, error := some ("Tool not found: " ++ "nope") } ∧
    ToolRegistryImpl.execute [throwingTool] "boomtool" [("x", JVal.null)] =
      { success := false, output := none, error := some "kaboom" } :=
  ⟨(c3_tool_invoker_never_throws [throwingTool] "nope" []).1 rfl,
   (c3_tool_invoker_never_throws [throwingTool] "boomtool" [("x", JVal.null)]).2
     throwingTool "kaboom" rfl rfl rfl⟩

theorem validateErrors_nil_iff (schema : ToolSchema) (params : ToolParams) :
    Tool.validateErrors schema params = [] ↔
      ((∀ r ∈ schema.required, (params.map Prod.fst).contains r = true) ∧
       (∀ k ∈ params.map Prod.fst, schema.properties.contains k = true)) := by
  simp [Tool.validateErrors]

/-- C4: `Tool.execute` validates against the schema before the executor
runs: validation fails exactly when a required field is missing or a
supplied key is outside the property set; on failure the result is the
joined validation messages and the outcome is independent of the executor
(it is never invoked); on success the executor's result is returned. -/
theorem c4_validation_before_executor (t : Tool) (params : ToolParams) :
    (Tool.validateErrors t.schema params ≠ [] ↔
      ((∃ r ∈ t.schema.required, ¬ (params.map Prod.fst).contains r = true) ∨
       (∃ k ∈ params.map Prod.fst, ¬ t.schema.properties.contains k = true))) ∧
    (Tool.validateErrors t.schema params ≠ [] →
      Tool.execute t params =
        { success := false, output := none
          error := some ("Invalid parameters: " ++
            String.intercalate ", " (Tool.validateErrors t.schema params)) } ∧
      ∀ f, Tool.execute { t with executor := f } params = Tool.execute t params) ∧
    (Tool.validateErrors t.schema params = [] →
      ∀ r, t.executor params = Except.ok r → Tool.execute t params = r) := by
  refine ⟨?_, ?_, ?_⟩
  · rw [Ne, validateErrors_nil_iff]
    push_neg
    constructor
    · intro h
      by_cases h1 : ∀ r ∈ t.schema.required, (params.map Prod.fst).contains r = true
      · exact Or.inr (h h1)
      · push_neg at h1
        exact Or.inl h1
    · rintro (⟨r, hr, hn⟩ | ⟨k, hk, hn⟩) <;> intro hall
      · exact absurd (hall r hr) hn
      · exact ⟨k, hk, hn⟩
  · intro hne
    have hemp : (Tool.validateErrors t.schema params).isEmpty = false := by
      cases h : Tool.validateErrors t.schema params with
      | nil => exact absurd h hne
      | cons a l => simp
    constructor
    · simp [Tool.execute, hemp]
    · intro f
      simp [Tool.execute, hemp]
  · intro hv r hr
    simp [Tool.execute, hv, hr]

theorem evalCalc_two_plus_two : evalCalcExpr "2 + 2" = some 4 := by
  rw [show evalCalcExpr "2 + 2" = some (((2 : Nat) : Rat) + ((2 : Nat) : Rat)) from rfl]
  norm_num

theorem calculatorExec_two_plus_two :
    calculatorExec "2 + 2" = { success := true, output := some (JVal.num 4), error := none } := by
  rw [calculatorExec, evalCalc_two_plus_two]
  rfl

theorem c4_validation_before_executor_witness :
    Tool.execute createCalculatorTool [] =
      { success := false, output := none
        error := some ("Invalid parameters: " ++
          String.intercalate ", " (Tool.validateErrors createCalculatorTool.schema [])) } ∧
    Tool.execute createCalculatorTool [("expression", JVal.str "2 + 2")] =
      { success := true, output := some (JVal.num 4), error := none } := by
  refine ⟨((c4_validation_before_executor createCalculatorTool []).2.1 (by decide)).1, ?_⟩
  refine (c4_validation_before_executor createCalculatorTool
    [("expression", JVal.str "2 + 2")]).2.2 (by decide)
    { success := true, output := some (JVal.num 4), error := none } ?_
  rw [show createCalculatorTool.executor [("expression", JVal.str "2 + 2")] =
      Except.ok (calculatorExec "2 + 2") from rfl, calculatorExec_two_plus_two]

/-- C9 (counterexample): the expression `2 +` contains only allowed
characters, so it passes the character-class check, yet the calculator
returns a failure result because evaluation throws a syntax error — the
claim that every check-passing expression yields `success := true` is
false. -/
theorem c9_calculator_counterexample :
    calcCharCheck "2 +" = true ∧ (calculatorExec "2 +").success = false := by
  decide

/-- C9 (amended): an expression containing a character outside
`digits + - * / ( ) . whitespace` is rejected before evaluation with the
fixed `Invalid expression` error; an expression passing the check is
evaluated, returning `success := true` with its arithmetic value when it
is a well-formed expression (in particular `2 + 2` evaluates to 4) and a
`success := false` result when evaluation throws a syntax error. -/
theorem c9_calculator_amended (s : String) :
    (¬ calcCharCheck s = true →
      calculatorExec s =
        { success := false, output := none
          error := some "Invalid expression. Only numbers and basic operators are allowed." }) ∧
    (calcCharCheck s = true → ∀ v, evalCalcExpr s = some v →
      calculatorExec s = { success := true, output := some (JVal.num v), error := none }) ∧
    (calcCharCheck s = true → evalCalcExpr s = none →
      (calculatorExec s).success = false) := by
  refine ⟨?_, ?_, ?_⟩
  · intro h
    simp [calculatorExec, h]
  · intro h v hv
    simp [calculatorExec, h, hv]
  · intro h hv
    simp [calculatorExec, h, hv]

theorem c9_calculator_amended_witness :
    calculatorExec "2 + 2" = { success := true, output := some (JVal.num 4), error := none } ∧
    calculatorExec "2 + x" =
      { success := false, output := none
        error := some "Invalid expression. Only numbers and basic operators are allowed." } :=
  ⟨(c9_calculator_amended "2 + 2").2.1 (by decide) 4 evalCalc_two_plus_two,
   (c9_calculator_amended "2 + x").1 (by decide)⟩

/-- C10: both tier stores mint ids from the same `mem-<counter>` sequence,
so one id can denote distinct entries in the two tiers; on such a
collision `MemoryManager.retrieve` returns the short-term entry (the
long-term one is shadowed), and `MemoryManager.delete` deletes from both
tiers, reporting success if either tier contained the id. -/
theorem c10_id_collision_shadowing (now : Nat) (st : ManagerState) (id : String)
    (t : MemoryType) (c : String) (imp : MemoryImportance) (tg : List String)
    (sm : InMemState) (sf : FileState) :
    (InMemoryMemoryStore.store now t c imp tg sm).1.id = memId sm.nextId ∧
    (FileMemoryStore.store now t c imp tg sf).1.id = memId sf.nextId ∧
    (∀ e, st.shortTerm.entries.find? (fun x => x.id == id) = some e →
      (MemoryManager.retrieve now id st).1 = some (e.recordAccess now)) ∧
    (MemoryManager.delete id st).1 =
      (st.shortTerm.entries.any (fun e => e.id == id) ||
       st.longTerm.entries.any (fun e => e.id == id)) ∧
    (∀ x ∈ (MemoryManager.delete id st).2.shortTerm.entries, ¬ x.id = id) ∧
    (∀ x ∈ (MemoryManager.delete id st).2.longTerm.entries, ¬ x.id = id) := by
  refine ⟨rfl, rfl, ?_, rfl, ?_, ?_⟩
  · intro e he
    simp [MemoryManager.retrieve, InMemoryMemoryStore.retrieve, he]
  · intro x hx
    simp [MemoryManager.delete, InMemoryMemoryStore.delete, List.mem_filter] at hx
    simpa using hx.2
  · intro x hx
    simp [MemoryManager.delete, FileMemoryStore.delete, List.mem_filter] at hx
    simpa using hx.2

theorem c10_id_collision_shadowing_witness :
    entryShortHighA.id = entryLongSameId.id ∧
    entryShortHighA ≠ entryLongSameId ∧
    (MemoryManager.retrieve 9 (memId 1) mgrStateShadow).1 =
      some (entryShortHighA.recordAccess 9) ∧
    (MemoryManager.delete (memId 1) mgrStateShadow).1 = true ∧
    (MemoryManager.delete (memId 1) mgrStateShadow).2.shortTerm.entries = [] ∧
    (MemoryManager.delete (memId 1) mgrStateShadow).2.longTerm.entries = [] := by
  refine ⟨rfl, by decide, ?_, ?_, by decide, by decide⟩
  · exact (c10_id_collision_shadowing 9 mgrStateShadow (memId 1) .shortTerm "" .low []
      InMemState.emptyStore FileState.emptyStore).2.2.1 entryShortHighA rfl
  · rw [(c10_id_collision_shadowing 9 mgrStateShadow (memId 1) .shortTerm "" .low []
      InMemState.emptyStore FileState.emptyStore).2.2.2.1]
    decide

/-- C6 (counterexample): `prune(0, Medium)` — a supplied `maxAge` of 0 —
removes a low-importance entry of age 0: JavaScript treats the zero
`maxAge` as falsy and prunes on importance alone, while the claim's
condition (`maxAge` given, so removal requires age > maxAge) says the
entry must be kept. -/
theorem c6_prune_counterexample :
    (InMemoryMemoryStore.prune 5 (some 0) MemoryImportance.medium mStateLow).2.entries = [] ∧
    (InMemoryMemoryStore.prune 5 (some 0) MemoryImportance.medium mStateLow).1 = 1 ∧
    ¬ ClaimPruneStated 5 (some 0) MemoryImportance.medium entryLowFresh := by
  refine ⟨by decide, by decide, ?_⟩
  intro h
  rcases h with ⟨⟨m, hm, hage⟩, _⟩ | ⟨hnone, _⟩
  · cases hm
    simp [entryLowFresh] at hage
  · cases hnone

/-- C6 (amended): for both tier stores, `prune(maxAge?, minImportance)`
removes an entry iff (maxAge supplied and nonzero AND age > maxAge AND
importance < minImportance) OR (maxAge absent or zero AND importance <
minImportance); in particular `prune(undefined, Medium)` removes every
low-importance entry regardless of age and keeps every entry of at least
medium importance regardless of age. -/
theorem c6_prune_amended (now : Nat) (maxAge : Option Nat) (minImp : MemoryImportance)
    (st : InMemState) (stf : FileState) :
    (∀ x, x ∈ (InMemoryMemoryStore.prune now maxAge minImp st).2.entries ↔
      (x ∈ st.entries ∧ ¬ ClaimPruneAmended now maxAge minImp x)) ∧
    (∀ x, x ∈ (FileMemoryStore.prune now maxAge minImp stf).2.entries ↔
      (x ∈ stf.entries ∧ ¬ ClaimPruneAmended now maxAge minImp x)) ∧
    (∀ x ∈ st.entries, x.metadata.importance = MemoryImportance.low →
      x ∉ (InMemoryMemoryStore.prune now none MemoryImportance.medium st).2.entries) ∧
    (∀ x ∈ st.entries, MemoryImportance.medium.toNat ≤ x.metadata.importance.toNat →
      x ∈ (InMemoryMemoryStore.prune now none MemoryImportance.medium st).2.entries) := by
  refine ⟨?_, ?_, ?_, ?_⟩
  · intro x
    simp [InMemoryMemoryStore.prune, List.mem_filter, shouldPrune_iff_amended]
    intro _
    rw [← shouldPrune_iff_amended now maxAge minImp x]
    simp
  · intro x
    simp [FileMemoryStore.prune, List.mem_filter, shouldPrune_iff_amended]
    intro _
    rw [← shouldPrune_iff_amended now maxAge minImp x]
    simp
  · intro x hx hlow
    simp [InMemoryMemoryStore.prune, List.mem_filter, InMemoryMemoryStore.shouldPrune, hlow]
    intro hmem
    simp [MemoryImportance.toNat, hlow]
  · intro x hx himp
    simp [InMemoryMemoryStore.prune, List.mem_filter, InMemoryMemoryStore.shouldPrune, hx]
    omega

theorem c6_prune_amended_witness :
    entryLowFresh ∉
      (InMemoryMemoryStore.prune 100 none MemoryImportance.medium mStateLow).2.entries ∧
    entryShortHighA ∈
      (InMemoryMemoryStore.prune 100 none MemoryImportance.medium
        { entries := [entryShortHighA], nextId := 2 }).2.entries :=
  ⟨(c6_prune_amended 100 none MemoryImportance.medium mStateLow FileState.emptyStore).2.2.1
      entryLowFresh (by decide) rfl,
   (c6_prune_amended 100 none MemoryImportance.medium
      { entries := [entryShortHighA], nextId := 2 } FileState.emptyStore).2.2.2
      entryShortHighA (by decide) (by decide)⟩

theorem agentLoop_exhaust (llm : Nat → Except String LLMResponse) (reg : List Tool) :
    ∀ (remaining k : Nat) (acc : List Iteration),
      (∀ j, k < j → j ≤ k + remaining → ∃ r, llm j = .ok r ∧ r.toolCalls ≠ []) →
      ∃ its, agentLoop llm reg remaining k acc = .ok (false, none, its) ∧
        its.length = acc.length + remaining := by
  intro remaining
  induction remaining with
  | zero =>
    intro k acc _
    exact ⟨acc, rfl, by omega⟩
  | succ rem ih =>
    intro k acc h
    obtain ⟨r, hr, htc⟩ := h (k + 1) (by omega) (by omega)
    cases htc2 : r.toolCalls with
    | nil => exact absurd htc2 htc
    | cons tc rest =>
      simp only [agentLoop, hr, htc2]
      obtain ⟨its, hits, hlen⟩ := ih (k + 1)
        (acc ++ [{ number := k + 1
                   thought := r.content
                   action := tc.name
                   actionInput := tc.args
                   observation := observationOf (ToolRegistryImpl.execute reg tc.name tc.args) }])
        (fun j hj1 hj2 => h j (by omega) (by omega))
      refine ⟨its, hits, ?_⟩
      rw [hlen, List.length_append]
      simp
      omega

theorem agentLoop_throw (llm : Nat → Except String LLMResponse) (reg : List Tool) :
    ∀ (remaining k : Nat) (acc : List Iteration) (i : Nat) (msg : String),
      k < i → i ≤ k + remaining →
      (∀ j, k < j → j < i → ∃ r, llm j = .ok r ∧ r.toolCalls ≠ []) →
      llm i = .error msg →
      agentLoop llm reg remaining k acc = .error msg := by
  intro remaining
  induction remaining with
  | zero =>
    intro k acc i msg h1 h2 _ _
    omega
  | succ rem ih =>
    intro k acc i msg h1 h2 h3 herr
    by_cases hik : i = k + 1
    · subst hik
      simp only [agentLoop, herr]
    · obtain ⟨r, hr, htc⟩ := h3 (k + 1) (by omega) (by omega)
      cases htc2 : r.toolCalls with
      | nil => exact absurd htc2 htc
      | cons tc rest =>
        simp only [agentLoop, hr, htc2]
        exact ih (k + 1) _ i msg (by omega) (by omega)
          (fun j hj1 hj2 => h3 j (by omega) hj2) herr

/-- C2 (counterexample): a model oracle that requests a tool call on
iteration 1 and throws on iteration 2.  With `maxIterations = 1` the bound
is hit and the returned (failed) response carries the accumulated
Iteration record; with `maxIterations = 2` the same oracle's exception
surfaces as a bare `err(error)` — the one Iteration record accumulated
before the failure point is not part of the result, refuting the claim for
the exception path. -/
theorem c2_failure_iterations_counterexample :
    executeAgent llmThenBoom [] 2 = Except.error "boom" ∧
    executeAgent llmThenBoom [] 1 =
      Except.ok
        ({ success := false
           output := none
           error := some "Maximum iterations reached"
           iterations :=
             [{ number := 1
                thought := "step one"
                action := "calculator"
                actionInput := [("expression", JVal.str "1+1")]
                observation := "Error: " ++ "Tool not found: " ++ "calculator" }] },
         { status := TaskStatus.failed
           result := some { success := false, output := none
                            error := some "Maximum iterations reached without completion" } }) := by
  exact ⟨rfl, rfl⟩

/-- C2 (amended): a failure by iteration-bound exhaustion returns a
response carrying every accumulated Iteration record (one per iteration);
a failure by an exception raised during an iteration returns only the
causal error — the `err` result carries no Iteration records. -/
theorem c2_failure_iterations_amended (llm : Nat → Except String LLMResponse)
    (reg : List Tool) (maxIter : Nat) :
    ((∀ k, 1 ≤ k → k ≤ maxIter → ∃ r, llm k = .ok r ∧ r.toolCalls ≠ []) →
      (executeAgent llm reg maxIter).map
          (fun p => (p.1.success, p.1.iterations.length)) =
        .ok (false, maxIter)) ∧
    (∀ i msg, 1 ≤ i → i ≤ maxIter →
      (∀ k, 1 ≤ k → k < i → ∃ r, llm k = .ok r ∧ r.toolCalls ≠ []) →
      llm i = .error msg →
      executeAgent llm reg maxIter = Except.error msg) := by
  constructor
  · intro h
    obtain ⟨its, hits, hlen⟩ := agentLoop_exhaust llm reg maxIter 0 []
      (fun j hj1 hj2 => h j (by omega) (by omega))
    rw [executeAgent, hits]
    simp only [List.length_nil, Nat.zero_add] at hlen
    simp [Except.map, hlen]
  · intro i msg h1 h2 h3 herr
    rw [executeAgent, agentLoop_throw llm reg maxIter 0 [] i msg (by omega) (by omega)
      (fun j hj1 hj2 => h3 j (by omega) hj2) herr]

theorem c2_failure_iterations_amended_witness :
    (executeAgent llmAlwaysTool [] 2).map
        (fun p => (p.1.success, p.1.iterations.length)) = .ok (false, 2) ∧
    executeAgent llmThenBoom [] 3 = Except.error "boom" :=
  ⟨(c2_failure_iterations_amended llmAlwaysTool [] 2).1
      (fun k _ _ => ⟨_, rfl, by decide⟩),
   (c2_failure_iterations_amended llmThenBoom [] 3).2 2 "boom" (by omega) (by omega)
      (fun k hk1 hk2 => by
        have hk : k = 1 := by omega
        subst hk
        exact ⟨_, rfl, by decide⟩) rfl⟩

/-- C8: when the model requests a tool call on every iteration and the
loop exhausts its iteration bound without a final answer, the execution
ends failed with the fixed `Maximum iterations reached` error, the task is
marked Failed with its fixed message, and the response carries exactly one
Iteration record per iteration (with `maxIterations = 1`, exactly one);
the failed result is returned to the caller as is — nothing in `execute`
retries the loop. -/
theorem c8_max_iterations_failed (llm : Nat → Except String LLMResponse)
    (reg : List Tool) (maxIter : Nat)
    (h : ∀ k, 1 ≤ k → k ≤ maxIter → ∃ r, llm k = .ok r ∧ r.toolCalls ≠ []) :
    (executeAgent llm reg maxIter).map
        (fun p => (p.1.success, p.1.error, p.1.iterations.length, p.2.status, p.2.result)) =
      .ok (false, some "Maximum iterations reached", maxIter, TaskStatus.failed,
        some { success := false, output := none
               error := some "Maximum iterations reached without completion" }) := by
  obtain ⟨its, hits, hlen⟩ := agentLoop_exhaust llm reg maxIter 0 []
    (fun j hj1 hj2 => h j (by omega) (by omega))
  rw [executeAgent, hits]
  simp only [List.length_nil, Nat.zero_add] at hlen
  simp [Except.map, Task.setResult, Task.updateStatus, hlen]

theorem c8_max_iterations_failed_witness :
    (executeAgent llmAlwaysTool [] 1).map
        (fun p => (p.1.success, p.1.error, p.1.iterations.length, p.2.status, p.2.result)) =
      .ok (false, some "Maximum iterations reached", 1, TaskStatus.failed,
        some { success := false, output := none
               error := some "Maximum iterations reached without completion" }) :=
  c8_max_iterations_failed llmAlwaysTool [] 1 (fun k _ _ => ⟨_, rfl, by decide⟩)

theorem filterType_eq (q : MemoryQuery) (l : List MemoryEntry) :
    InMemoryMemoryStore.filterType q l = l.filter (fun e => typeOk q e) := by
  cases hq : q.mtype <;> simp [InMemoryMemoryStore.filterType, typeOk, hq]

theorem filterTags_eq (q : MemoryQuery) (l : List MemoryEntry) :
    InMemoryMemoryStore.filterTags q l = l.filter (fun e => tagsOk q e) := by
  cases hq : q.tags with
  | none => simp [InMemoryMemoryStore.filterTags, tagsOk, hq]
  | some ts =>
    by_cases he : ts.isEmpty
    · simp [InMemoryMemoryStore.filterTags, tagsOk, hq, he]
    · simp [InMemoryMemoryStore.filterTags, tagsOk, hq, he]

theorem filterImportance_eq (q : MemoryQuery) (l : List MemoryEntry) :
    InMemoryMemoryStore.filterImportance q l = l.filter (fun e => impOk q e) := by
  cases hq : q.minImportance <;> simp [InMemoryMemoryStore.filterImportance, impOk, hq]

theorem filterAge_eq (now : Nat) (q : MemoryQuery) (l : List MemoryEntry) :
    InMemoryMemoryStore.filterAge now q l = l.filter (fun e => ageOk now q e) := by
  cases hq : q.maxAge with
  | none => simp [InMemoryMemoryStore.filterAge, ageOk, hq]
  | some a =>
    by_cases ha : a == 0
    · simp [InMemoryMemoryStore.filterAge, ageOk, hq, ha]
    · simp [InMemoryMemoryStore.filterAge, ageOk, hq, ha]

theorem filterSearch_eq (q : MemoryQuery) (l : List MemoryEntry) :
    InMemoryMemoryStore.filterSearch q l =
      l.filter (fun e => InMemoryMemoryStore.searchMatches q.searchText e) := by
  cases hq : q.searchText with
  | none => simp [InMemoryMemoryStore.filterSearch, InMemoryMemoryStore.searchMatches, hq]
  | some s =>
    by_cases hs : (s == "") = true
    · have hseq : s = "" := by simpa using hs
      subst hseq
      simp [InMemoryMemoryStore.filterSearch, InMemoryMemoryStore.searchMatches, hq]
    · simp only [InMemoryMemoryStore.filterSearch, hq]
      rw [if_neg hs]

theorem filters4_eq (now : Nat) (q : MemoryQuery) (l : List MemoryEntry) :
    InMemoryMemoryStore.filterAge now q
        (InMemoryMemoryStore.filterImportance q
          (InMemoryMemoryStore.filterTags q (InMemoryMemoryStore.filterType q l))) =
      l.filter (fun e => matchesQueryMeta now q e) := by
  rw [filterType_eq, filterTags_eq, filterImportance_eq, filterAge_eq,
    List.filter_filter, List.filter_filter, List.filter_filter]
  congr 1
  funext e
  simp only [matchesQueryMeta]
  cases typeOk q e <;> cases tagsOk q e <;> cases impOk q e <;> cases ageOk now q e <;> rfl

theorem filters5_eq (now : Nat) (q : MemoryQuery) (l : List MemoryEntry) :
    InMemoryMemoryStore.filterSearch q
        (InMemoryMemoryStore.filterAge now q
          (InMemoryMemoryStore.filterImportance q
            (InMemoryMemoryStore.filterTags q (InMemoryMemoryStore.filterType q l)))) =
      l.filter (fun e => matchesQuery now q e) := by
  rw [filters4_eq, filterSearch_eq, List.filter_filter]
  congr 1
  funext e
  simp only [matchesQuery]
  cases matchesQueryMeta now q e <;>
    cases InMemoryMemoryStore.searchMatches q.searchText e <;> rfl

theorem inMem_query_fst (now : Nat) (q : MemoryQuery) (st : InMemState) :
    (InMemoryMemoryStore.query now q st).1 =
      (InMemoryMemoryStore.applyLimit q
          (List.insertionSort accessedDesc
            (st.entries.filter (fun e => matchesQuery now q e)))).map
        (MemoryEntry.recordAccess now) := by
  simp only [InMemoryMemoryStore.query]
  rw [filters5_eq]

theorem inMem_query_snd (now : Nat) (q : MemoryQuery) (st : InMemState) :
    (InMemoryMemoryStore.query now q st).2.entries =
      st.entries.map (fun e =>
        if (((InMemoryMemoryStore.query now q st).1).map (fun x => x.id)).contains e.id
        then e.recordAccess now else e) := by
  simp only [InMemoryMemoryStore.query, List.map_map]
  rfl

theorem fileQueryLoop_chr (now : Nat) (s : Option String) :
    ∀ (sel : List MemoryEntry) (st : FileState),
      (∀ y ∈ sel, st.entries.find? (fun e => e.id == y.id) = some y) →
      (sel.map MemoryEntry.id).Nodup →
      (FileMemoryStore.queryLoop now s (sel.map (fun e => e.id)) st).1 =
          (sel.map (MemoryEntry.recordAccess now)).filter
            (InMemoryMemoryStore.searchMatches s) ∧
      (FileMemoryStore.queryLoop now s (sel.map (fun e => e.id)) st).2.entries =
          st.entries.map (fun e =>
            if (sel.map MemoryEntry.id).contains e.id then e.recordAccess now else e) := by
  intro sel
  induction sel with
  | nil =>
    intro st _ _
    constructor
    · rfl
    · simp [FileMemoryStore.queryLoop]
  | cons x rest ih =>
    intro st hfind hnd
    have hx : st.entries.find? (fun e => e.id == x.id) = some x :=
      hfind x (List.mem_cons_self x rest)
    have hxid : x.id ∉ rest.map MemoryEntry.id := by
      have := hnd
      simp only [List.map_cons, List.nodup_cons] at this
      exact this.1
    have hstep : FileMemoryStore.retrieve now x.id st =
        (some (x.recordAccess now),
          { entries := st.entries.map (fun e => if e.id == x.id then e.recordAccess now else e)
            nextId := st.nextId }) := by
      simp [FileMemoryStore.retrieve, hx]
    have hfind2 : ∀ y ∈ rest,
        (st.entries.map (fun e => if e.id == x.id then e.recordAccess now else e)).find?
            (fun e => e.id == y.id) = some y := by
      intro y hy
      rw [find?_id_map_of_preserved (fun e => by split <;> simp)]
      rw [hfind y (List.mem_cons_of_mem x hy)]
      have hyx : ¬ (y.id == x.id) = true := by
        intro hbeq
        apply hxid
        have : y.id = x.id := by simpa using hbeq
        rw [← this]
        exact List.mem_map_of_mem MemoryEntry.id hy
      simp [Option.map, hyx]
    have hnd2 : (rest.map MemoryEntry.id).Nodup := by
      have := hnd
      simp only [List.map_cons, List.nodup_cons] at this
      exact this.2
    obtain ⟨ih1, ih2⟩ := ih
      { entries := st.entries.map (fun e => if e.id == x.id then e.recordAccess now else e)
        nextId := st.nextId } hfind2 hnd2
    constructor
    · simp only [List.map_cons, FileMemoryStore.queryLoop, hstep]
      by_cases hsm : InMemoryMemoryStore.searchMatches s (x.recordAccess now) = true
      · simp only [hsm, if_true, ih1, List.filter_cons, hsm]
      · simp only [Bool.not_eq_true] at hsm
        simp only [hsm, Bool.false_eq_true, if_false, ih1, List.filter_cons, hsm]
    · simp only [List.map_cons, FileMemoryStore.queryLoop, hstep]
      have hsnd : (if InMemoryMemoryStore.searchMatches s (x.recordAccess now) = true then
            ((x.recordAccess now) ::
              (FileMemoryStore.queryLoop now s (rest.map (fun e => e.id))
                { entries := st.entries.map
                    (fun e => if e.id == x.id then e.recordAccess now else e)
                  nextId := st.nextId }).1,
              (FileMemoryStore.queryLoop now s (rest.map (fun e => e.id))
                { entries := st.entries.map
                    (fun e => if e.id == x.id then e.recordAccess now else e)
                  nextId := st.nextId }).2)
          else
            FileMemoryStore.queryLoop now s (rest.map (fun e => e.id))
              { entries := st.entries.map
                  (fun e => if e.id == x.id then e.recordAccess now else e)
                nextId := st.nextId }).2 =
          (FileMemoryStore.queryLoop now s (rest.map (fun e => e.id))
            { entries := st.entries.map
                (fun e => if e.id == x.id then e.recordAccess now else e)
              nextId := st.nextId }).2 := by
        split <;> rfl
      rw [hsnd, ih2]
      simp only [List.map_map]
      apply List.map_congr_left
      intro e _
      simp only [Function.comp_apply, List.map_cons, List.contains_cons]
      by_cases hex : (e.id == x.id) = true
      · rw [if_pos hex]
        have h1 : (rest.map MemoryEntry.id).contains e.id = false := by
          have hexid : e.id = x.id := by simpa using hex
          rw [hexid]
          simpa using hxid
        simp only [recordAccess_id, h1, hex, Bool.false_eq_true, Bool.true_or,
          eq_self_iff_true, if_true, if_false]
      · rw [if_neg hex]
        have hexf : (e.id == x.id) = false := by simpa using hex
        simp [hexf]

theorem applyLimit_sublist (q : MemoryQuery) (l : List MemoryEntry) :
    (InMemoryMemoryStore.applyLimit q l).Sublist l := by
  unfold InMemoryMemoryStore.applyLimit
  cases q.limit with
  | none => exact List.Sublist.refl l
  | some n =>
    dsimp only
    split
    · exact List.take_sublist n l
    · exact List.Sublist.refl l

theorem sel_mem_and_nodup (now : Nat) (q : MemoryQuery) (l : List MemoryEntry)
    (hnd : (l.map MemoryEntry.id).Nodup) :
    (∀ y ∈ InMemoryMemoryStore.applyLimit q
        (List.insertionSort accessedDesc (l.filter (fun e => matchesQueryMeta now q e))), y ∈ l) ∧
    ((InMemoryMemoryStore.applyLimit q
        (List.insertionSort accessedDesc
          (l.filter (fun e => matchesQueryMeta now q e)))).map MemoryEntry.id).Nodup := by
  constructor
  · intro y hy
    have h1 : y ∈ List.insertionSort accessedDesc (l.filter (fun e => matchesQueryMeta now q e)) :=
      (applyLimit_sublist q _).subset hy
    have h2 : y ∈ l.filter (fun e => matchesQueryMeta now q e) :=
      (List.perm_insertionSort accessedDesc _).mem_iff.mp h1
    exact List.mem_of_mem_filter h2
  · have hfil : ((l.filter (fun e => matchesQueryMeta now q e)).map MemoryEntry.id).Nodup :=
      ((List.filter_sublist l).map MemoryEntry.id).nodup hnd
    have hsort : ((List.insertionSort accessedDesc
        (l.filter (fun e => matchesQueryMeta now q e))).map MemoryEntry.id).Nodup :=
      (((List.perm_insertionSort accessedDesc _).map MemoryEntry.id).nodup_iff).mpr hfil
    exact ((applyLimit_sublist q _).map MemoryEntry.id).nodup hsort

theorem file_query_fst (now : Nat) (q : MemoryQuery) (stf : FileState)
    (hnd : (stf.entries.map MemoryEntry.id).Nodup) :
    (FileMemoryStore.query now q stf).1 =
      ((InMemoryMemoryStore.applyLimit q
          (List.insertionSort accessedDesc
            (stf.entries.filter (fun e => matchesQueryMeta now q e)))).map
        (MemoryEntry.recordAccess now)).filter
        (InMemoryMemoryStore.searchMatches q.searchText) := by
  obtain ⟨hmem, hseln⟩ := sel_mem_and_nodup now q stf.entries hnd
  have hfind : ∀ y ∈ InMemoryMemoryStore.applyLimit q
      (List.insertionSort accessedDesc
        (stf.entries.filter (fun e => matchesQueryMeta now q e))),
      stf.entries.find? (fun e => e.id == y.id) = some y :=
    fun y hy => find?_id_eq_self hnd (hmem y hy)
  have := (fileQueryLoop_chr now q.searchText
    (InMemoryMemoryStore.applyLimit q
      (List.insertionSort accessedDesc
        (stf.entries.filter (fun e => matchesQueryMeta now q e)))) stf hfind hseln).1
  simp only [FileMemoryStore.query]
  rw [filters4_eq]
  exact this

/-- C5 (counterexample): a file-store query with `searchText` and a limit.
Sorted by `accessedAt` descending the index is `[banana, apple]`; the limit
of 1 keeps only `banana`, and the search filter for `apple` then discards
it, so the query returns nothing even though `apple` satisfies every
predicate — the limit is NOT applied after all predicates in the file
store.  The in-memory store on the same entries returns the apple entry,
as the claim demands. -/
theorem c5_query_counterexample :
    (FileMemoryStore.query 30 queryApple fStateAB).1 = [] ∧
    matchesQuery 30 queryApple fentryApple = true ∧
    (InMemoryMemoryStore.query 30 queryApple mStateAB).1 =
      [fentryApple.recordAccess 30] := by
  refine ⟨by decide, by decide, by decide⟩

/-- C5 (amended): for the in-memory store the claim holds: `query` returns
exactly the entries satisfying the conjunction of all supplied predicates
(with JavaScript-truthiness edges: an empty tag list, a zero `maxAge` and
an empty `searchText` behave as absent), ranked by a descending-`accessedAt`
sorted permutation, with the limit applied after all predicates, and every
returned entry's access metadata bumped in the store.  For the file store
the `searchText` predicate alone is applied only after sorting and
limiting the other four predicates, so a limited search query can return
fewer entries than match. -/
theorem c5_query_contract (now : Nat) (q : MemoryQuery) (st : InMemState) (stf : FileState)
    (hnd : (stf.entries.map MemoryEntry.id).Nodup) :
    (InMemoryMemoryStore.query now q st).1 =
      (InMemoryMemoryStore.applyLimit q
          (List.insertionSort accessedDesc
            (st.entries.filter (fun e => matchesQuery now q e)))).map
        (MemoryEntry.recordAccess now) ∧
    List.Sorted accessedDesc
      (List.insertionSort accessedDesc (st.entries.filter (fun e => matchesQuery now q e))) ∧
    (List.insertionSort accessedDesc (st.entries.filter (fun e => matchesQuery now q e))).Perm
      (st.entries.filter (fun e => matchesQuery now q e)) ∧
    (∀ x ∈ st.entries,
      ((((InMemoryMemoryStore.query now q st).1).map (fun e => e.id)).contains x.id →
        x.recordAccess now ∈ (InMemoryMemoryStore.query now q st).2.entries) ∧
      (¬ (((InMemoryMemoryStore.query now q st).1).map (fun e => e.id)).contains x.id = true →
        x ∈ (InMemoryMemoryStore.query now q st).2.entries)) ∧
    (FileMemoryStore.query now q stf).1 =
      ((InMemoryMemoryStore.applyLimit q
          (List.insertionSort accessedDesc
            (stf.entries.filter (fun e => matchesQueryMeta now q e)))).map
        (MemoryEntry.recordAccess now)).filter
        (InMemoryMemoryStore.searchMatches q.searchText) := by
  refine ⟨inMem_query_fst now q st, List.sorted_insertionSort accessedDesc _,
    List.perm_insertionSort accessedDesc _, ?_, file_query_fst now q stf hnd⟩
  intro x hx
  constructor
  · intro hin
    have := List.mem_map_of_mem
      (fun e => if (((InMemoryMemoryStore.query now q st).1).map (fun y => y.id)).contains e.id
        then e.recordAccess now else e) hx
    dsimp only at this
    rw [if_pos hin] at this
    rw [inMem_query_snd]
    exact this
  · intro hout
    have := List.mem_map_of_mem
      (fun e => if (((InMemoryMemoryStore.query now q st).1).map (fun y => y.id)).contains e.id
        then e.recordAccess now else e) hx
    dsimp only at this
    rw [if_neg hout] at this
    rw [inMem_query_snd]
    exact this

theorem c5_query_contract_witness :
    (InMemoryMemoryStore.query 30 queryApple mStateAB).1 =
      (InMemoryMemoryStore.applyLimit queryApple
          (List.insertionSort accessedDesc
            (mStateAB.entries.filter (fun e => matchesQuery 30 queryApple e)))).map
        (MemoryEntry.recordAccess 30) ∧
    (FileMemoryStore.query 30 queryApple fStateAB).1 =
      ((InMemoryMemoryStore.applyLimit queryApple
          (List.insertionSort accessedDesc
            (fStateAB.entries.filter (fun e => matchesQueryMeta 30 queryApple e)))).map
        (MemoryEntry.recordAccess 30)).filter
        (InMemoryMemoryStore.searchMatches queryApple.searchText) :=
  ⟨(c5_query_contract 30 queryApple mStateAB fStateAB (by decide)).1,
   (c5_query_contract 30 queryApple mStateAB fStateAB (by decide)).2.2.2.2⟩

theorem consolidateLoop_count (fails : String → Bool) (now : Nat) :
    ∀ (ms : List MemoryEntry) (st : ManagerState),
      (MemoryManager.consolidateLoop fails now ms st).1 =
        (ms.filter (fun m => !fails m.id)).length := by
  intro ms
  induction ms with
  | nil => intro st; rfl
  | cons m rest ih =>
    intro st
    by_cases hf : fails m.id = true
    · simp [MemoryManager.consolidateLoop, hf, List.filter_cons, ih]
    · simp only [Bool.not_eq_true] at hf
      simp [MemoryManager.consolidateLoop, hf, List.filter_cons, ih]

theorem consolidateLoop_shortTerm (fails : String → Bool) (now : Nat) :
    ∀ (ms : List MemoryEntry) (st : ManagerState),
      (MemoryManager.consolidateLoop fails now ms st).2.shortTerm.entries =
        st.shortTerm.entries.filter
          (fun e => !(nonFailingIds fails ms).contains e.id) := by
  intro ms
  induction ms with
  | nil =>
    intro st
    simp [MemoryManager.consolidateLoop, nonFailingIds]
  | cons m rest ih =>
    intro st
    by_cases hf : fails m.id = true
    · rw [show MemoryManager.consolidateLoop fails now (m :: rest) st =
          MemoryManager.consolidateLoop fails now rest st by
        simp [MemoryManager.consolidateLoop, hf]]
      rw [ih]
      have : nonFailingIds fails (m :: rest) = nonFailingIds fails rest := by
        simp [nonFailingIds, List.filter_cons, hf]
      rw [this]
    · simp only [Bool.not_eq_true] at hf
      have hstep : MemoryManager.consolidateLoop fails now (m :: rest) st =
          (let p := MemoryManager.consolidateLoop fails now rest
            { shortTerm := (InMemoryMemoryStore.delete m.id st.shortTerm).2
              longTerm := (FileMemoryStore.store now .longTerm m.content
                m.metadata.importance m.metadata.tags st.longTerm).2 }
           (p.1 + 1, p.2)) := by
        simp [MemoryManager.consolidateLoop, hf]
      rw [hstep]
      dsimp only
      rw [ih]
      have hnf : nonFailingIds fails (m :: rest) = m.id :: nonFailingIds fails rest := by
        simp [nonFailingIds, List.filter_cons, hf]
      rw [hnf]
      simp only [InMemoryMemoryStore.delete, List.filter_filter]
      apply List.filter_congr
      intro e _
      simp only [List.contains_cons]
      cases he : (e.id == m.id) <;> cases hc : (nonFailingIds fails rest).contains e.id <;> rfl

theorem consolidateLoop_longTerm_mono (fails : String → Bool) (now : Nat) :
    ∀ (ms : List MemoryEntry) (st : ManagerState) (d : MemoryEntry),
      d ∈ st.longTerm.entries →
      d ∈ (MemoryManager.consolidateLoop fails now ms st).2.longTerm.entries := by
  intro ms
  induction ms with
  | nil => intro st d hd; exact hd
  | cons m rest ih =>
    intro st d hd
    by_cases hf : fails m.id = true
    · rw [show MemoryManager.consolidateLoop fails now (m :: rest) st =
          MemoryManager.consolidateLoop fails now rest st by
        simp [MemoryManager.consolidateLoop, hf]]
      exact ih st d hd
    · simp only [Bool.not_eq_true] at hf
      have hstep : (MemoryManager.consolidateLoop fails now (m :: rest) st).2 =
          (MemoryManager.consolidateLoop fails now rest
            { shortTerm := (InMemoryMemoryStore.delete m.id st.shortTerm).2
              longTerm := (FileMemoryStore.store now .longTerm m.content
                m.metadata.importance m.metadata.tags st.longTerm).2 }).2 := by
        simp [MemoryManager.consolidateLoop, hf]
      rw [hstep]
      apply ih
      simp only [FileMemoryStore.store]
      exact List.mem_append_left _ hd

theorem consolidateLoop_adds (fails : String → Bool) (now : Nat) :
    ∀ (ms : List MemoryEntry) (st : ManagerState) (m : MemoryEntry),
      m ∈ ms → fails m.id = false →
      ∃ d ∈ (MemoryManager.consolidateLoop fails now ms st).2.longTerm.entries,
        d.mtype = MemoryType.longTerm ∧ d.content = m.content ∧
        d.metadata.importance = m.metadata.importance ∧
        d.metadata.tags = m.metadata.tags := by
  intro ms
  induction ms with
  | nil => intro st m hm; cases hm
  | cons x rest ih =>
    intro st m hm hmf
    rcases List.mem_cons.mp hm with hxm | hmr
    · subst hxm
      have hstep : (MemoryManager.consolidateLoop fails now (m :: rest) st).2 =
          (MemoryManager.consolidateLoop fails now rest
            { shortTerm := (InMemoryMemoryStore.delete m.id st.shortTerm).2
              longTerm := (FileMemoryStore.store now .longTerm m.content
                m.metadata.importance m.metadata.tags st.longTerm).2 }).2 := by
        simp [MemoryManager.consolidateLoop, hmf]
      rw [hstep]
      refine ⟨{ id := memId st.longTerm.nextId
                mtype := MemoryType.longTerm
                content := m.content
                metadata := { createdAt := now, accessedAt := now, accessCount := 0
                              importance := m.metadata.importance
                              tags := m.metadata.tags } }, ?_, rfl, rfl, rfl, rfl⟩
      apply consolidateLoop_longTerm_mono
      simp [FileMemoryStore.store]
    · by_cases hf : fails x.id = true
      · rw [show MemoryManager.consolidateLoop fails now (x :: rest) st =
            MemoryManager.consolidateLoop fails now rest st by
          simp [MemoryManager.consolidateLoop, hf]]
        exact ih st m hmr hmf
      · simp only [Bool.not_eq_true] at hf
        have hstep : (MemoryManager.consolidateLoop fails now (x :: rest) st).2 =
            (MemoryManager.consolidateLoop fails now rest
              { shortTerm := (InMemoryMemoryStore.delete x.id st.shortTerm).2
                longTerm := (FileMemoryStore.store now .longTerm x.content
                  x.metadata.importance x.metadata.tags st.longTerm).2 }).2 := by
          simp [MemoryManager.consolidateLoop, hf]
        rw [hstep]
        exact ih _ m hmr hmf

theorem contains_string_iff (l : List String) (a : String) :
    l.contains a = true ↔ a ∈ l := by
  simp [List.contains]

/-- C1 (counterexample): a volatile store holding one episodic entry of
high importance.  Consolidation queries the volatile store with a
`type = short-term` filter, so the episodic entry is not selected: after
`consolidate()` the durable store is still empty and the entry is still in
the volatile store, although its importance is above the threshold — the
claim's "regardless of its memory type" is false. -/
theorem c1_consolidation_counterexample :
    (MemoryManager.consolidate (fun _ => false) MemoryImportance.high 100 mgrStateEpisodic).1 = 0 ∧
    (MemoryManager.consolidate (fun _ => false) MemoryImportance.high 100
      mgrStateEpisodic).2.longTerm.entries = [] ∧
    (MemoryManager.consolidate (fun _ => false) MemoryImportance.high 100
      mgrStateEpisodic).2.shortTerm.entries = [entryEpisodicHigh] := by
  refine ⟨by decide, by decide, by decide⟩

/-- C1 (amended): after `MemoryManager.consolidate()`, every entry that was
in the volatile store with type short-term and importance at or above the
configured threshold exists in the durable store as a long-term entry
preserving content, importance and tags and no longer exists in the
volatile store — except entries whose durable write failed, which remain
in the volatile store unchanged (but for access metadata) and are never
lost.  Volatile entries of any other memory type (episodic, etc.) are not
consolidated and remain in the volatile store regardless of importance. -/
theorem c1_consolidation_amended (fails : String → Bool) (cimp : MemoryImportance)
    (now : Nat) (st : ManagerState)
    (hnd : (st.shortTerm.entries.map MemoryEntry.id).Nodup) :
    ∀ e ∈ st.shortTerm.entries,
      (e.mtype = MemoryType.shortTerm → cimp.toNat ≤ e.metadata.importance.toNat →
        (fails e.id = false →
          (∃ d ∈ (MemoryManager.consolidate fails cimp now st).2.longTerm.entries,
            d.mtype = MemoryType.longTerm ∧ d.content = e.content ∧
            d.metadata.importance = e.metadata.importance ∧
            d.metadata.tags = e.metadata.tags) ∧
          ¬ ∃ x ∈ (MemoryManager.consolidate fails cimp now st).2.shortTerm.entries,
              x.id = e.id) ∧
        (fails e.id = true →
          ∃ x ∈ (MemoryManager.consolidate fails cimp now st).2.shortTerm.entries,
            x.id = e.id ∧ x.mtype = e.mtype ∧ x.content = e.content ∧
            x.metadata.importance = e.metadata.importance ∧
            x.metadata.tags = e.metadata.tags)) ∧
      (e.mtype ≠ MemoryType.shortTerm →
        ∃ x ∈ (MemoryManager.consolidate fails cimp now st).2.shortTerm.entries,
          x.id = e.id ∧ x.mtype = e.mtype ∧ x.content = e.content) := by
  intro e he
  have hmq : ∀ x : MemoryEntry,
      matchesQuery now { mtype := some MemoryType.shortTerm, minImportance := some cimp } x =
        ((x.mtype == MemoryType.shortTerm) &&
          decide (cimp.toNat ≤ x.metadata.importance.toNat)) := by
    intro x
    simp [matchesQuery, matchesQueryMeta, typeOk, tagsOk, impOk, ageOk,
      InMemoryMemoryStore.searchMatches]
  have hms_eq : (InMemoryMemoryStore.query now
      { mtype := some MemoryType.shortTerm, minImportance := some cimp } st.shortTerm).1 =
      (List.insertionSort accessedDesc
        (st.shortTerm.entries.filter (fun x => matchesQuery now
          { mtype := some MemoryType.shortTerm, minImportance := some cimp } x))).map
        (MemoryEntry.recordAccess now) := by
    rw [inMem_query_fst]
    rfl
  have hC : (MemoryManager.consolidate fails cimp now st).2 =
      (MemoryManager.consolidateLoop fails now
        ((InMemoryMemoryStore.query now
          { mtype := some MemoryType.shortTerm, minImportance := some cimp } st.shortTerm).1)
        { shortTerm := (InMemoryMemoryStore.query now
            { mtype := some MemoryType.shortTerm, minImportance := some cimp } st.shortTerm).2
          longTerm := st.longTerm }).2 := rfl
  have hmem_ms : ∀ x, x ∈ st.shortTerm.entries →
      matchesQuery now { mtype := some MemoryType.shortTerm, minImportance := some cimp } x = true →
      x.recordAccess now ∈ (InMemoryMemoryStore.query now
        { mtype := some MemoryType.shortTerm, minImportance := some cimp } st.shortTerm).1 := by
    intro x hx hmx
    rw [hms_eq]
    exact List.mem_map_of_mem _
      ((List.perm_insertionSort accessedDesc _).mem_iff.mpr (List.mem_filter.mpr ⟨hx, hmx⟩))
  have hms_src : ∀ m ∈ (InMemoryMemoryStore.query now
      { mtype := some MemoryType.shortTerm, minImportance := some cimp } st.shortTerm).1,
      ∃ x, x ∈ st.shortTerm.entries ∧
        matchesQuery now { mtype := some MemoryType.shortTerm, minImportance := some cimp } x = true ∧
        m = x.recordAccess now := by
    intro m hm
    rw [hms_eq] at hm
    obtain ⟨x, hx1, hx2⟩ := List.mem_map.mp hm
    have hx3 := (List.perm_insertionSort accessedDesc _).mem_iff.mp hx1
    obtain ⟨hx4, hx5⟩ := List.mem_filter.mp hx3
    exact ⟨x, hx4, hx5, hx2.symm⟩
  have hnf_mem : ∀ a, a ∈ nonFailingIds fails ((InMemoryMemoryStore.query now
      { mtype := some MemoryType.shortTerm, minImportance := some cimp } st.shortTerm).1) ↔
      ∃ m ∈ (InMemoryMemoryStore.query now
        { mtype := some MemoryType.shortTerm, minImportance := some cimp } st.shortTerm).1,
        fails m.id = false ∧ m.id = a := by
    intro a
    constructor
    · intro ha
      obtain ⟨m, hm1, hm2⟩ := List.mem_map.mp ha
      obtain ⟨hm3, hm4⟩ := List.mem_filter.mp hm1
      exact ⟨m, hm3, by simpa using hm4, hm2⟩
    · rintro ⟨m, hm1, hm2, hm3⟩
      exact List.mem_map.mpr ⟨m, List.mem_filter.mpr ⟨hm1, by simpa using hm2⟩, hm3⟩
  have hshort : (MemoryManager.consolidate fails cimp now st).2.shortTerm.entries =
      ((InMemoryMemoryStore.query now
        { mtype := some MemoryType.shortTerm, minImportance := some cimp } st.shortTerm).2).entries.filter
        (fun x => !(nonFailingIds fails ((InMemoryMemoryStore.query now
          { mtype := some MemoryType.shortTerm, minImportance := some cimp } st.shortTerm).1)).contains x.id) := by
    rw [hC]
    exact consolidateLoop_shortTerm fails now _ _
  have hs1e : ((InMemoryMemoryStore.query now
      { mtype := some MemoryType.shortTerm, minImportance := some cimp } st.shortTerm).2).entries =
      st.shortTerm.entries.map (fun x =>
        if (((InMemoryMemoryStore.query now
          { mtype := some MemoryType.shortTerm, minImportance := some cimp } st.shortTerm).1).map
            (fun y => y.id)).contains x.id then x.recordAccess now else x) := by
    rw [inMem_query_snd]
  constructor
  · intro hty himp
    have hmqe : matchesQuery now
        { mtype := some MemoryType.shortTerm, minImportance := some cimp } e = true := by
      rw [hmq]
      simp [hty, himp]
    have hb := hmem_ms e he hmqe
    constructor
    · intro hfe
      constructor
      · obtain ⟨d, hd, h1, h2, h3, h4⟩ := consolidateLoop_adds fails now _
          { shortTerm := (InMemoryMemoryStore.query now
              { mtype := some MemoryType.shortTerm, minImportance := some cimp } st.shortTerm).2
            longTerm := st.longTerm } (e.recordAccess now) hb (by simpa using hfe)
        refine ⟨d, ?_, h1, by simpa using h2, by simpa using h3, by simpa using h4⟩
        rw [hC]
        exact hd
      · rintro ⟨x, hx, hxe⟩
        rw [hshort] at hx
        obtain ⟨hx1, hx2⟩ := List.mem_filter.mp hx
        have hcon : (nonFailingIds fails ((InMemoryMemoryStore.query now
            { mtype := some MemoryType.shortTerm, minImportance := some cimp } st.shortTerm).1)).contains x.id = false := by
          simpa using hx2
        have hin : x.id ∈ nonFailingIds fails ((InMemoryMemoryStore.query now
            { mtype := some MemoryType.shortTerm, minImportance := some cimp } st.shortTerm).1) := by
          rw [hxe]
          exact (hnf_mem e.id).mpr ⟨e.recordAccess now, hb, by simpa using hfe, by simp⟩
        rw [← contains_string_iff] at hin
        rw [hcon] at hin
        cases hin
    · intro hfe
      have hnotin : (nonFailingIds fails ((InMemoryMemoryStore.query now
          { mtype := some MemoryType.shortTerm, minImportance := some cimp } st.shortTerm).1)).contains e.id = false := by
        by_contra hcc
        have : e.id ∈ nonFailingIds fails ((InMemoryMemoryStore.query now
            { mtype := some MemoryType.shortTerm, minImportance := some cimp } st.shortTerm).1) := by
          rw [← contains_string_iff]
          cases hcx : (nonFailingIds fails _).contains e.id
          · exact absurd hcx hcc
          · rfl
        obtain ⟨m, _, hm2, hm3⟩ := (hnf_mem e.id).mp this
        rw [hm3] at hm2
        rw [hm2] at hfe
        cases hfe
      refine ⟨if (((InMemoryMemoryStore.query now
          { mtype := some MemoryType.shortTerm, minImportance := some cimp } st.shortTerm).1).map
            (fun y => y.id)).contains e.id then e.recordAccess now else e, ?_, ?_, ?_, ?_, ?_, ?_⟩
      · rw [hshort, hs1e]
        refine List.mem_filter.mpr ⟨List.mem_map_of_mem _ he, ?_⟩
        split <;> simpa using hnotin
      · split <;> simp
      · split <;> simp
      · split <;> simp
      · split <;> simp
      · split <;> simp
  · intro hty
    have hnotin : (nonFailingIds fails ((InMemoryMemoryStore.query now
        { mtype := some MemoryType.shortTerm, minImportance := some cimp } st.shortTerm).1)).contains e.id = false := by
      by_contra hcc
      have hmem : e.id ∈ nonFailingIds fails ((InMemoryMemoryStore.query now
          { mtype := some MemoryType.shortTerm, minImportance := some cimp } st.shortTerm).1) := by
        rw [← contains_string_iff]
        cases hcx : (nonFailingIds fails _).contains e.id
        · exact absurd hcx hcc
        · rfl
      obtain ⟨m, hm1, _, hm3⟩ := (hnf_mem e.id).mp hmem
      obtain ⟨x, hx1, hx2, hx3⟩ := hms_src m hm1
      have hxid : x.id = e.id := by
        rw [hx3] at hm3
        simpa using hm3
      have hxe : x = e := List.inj_on_of_nodup_map hnd hx1 he hxid
      rw [hmq] at hx2
      have : x.mtype = MemoryType.shortTerm := by
        have := (Bool.and_eq_true _ _).mp hx2
        simpa using this.1
      rw [hxe] at this
      exact hty this
    refine ⟨if (((InMemoryMemoryStore.query now
        { mtype := some MemoryType.shortTerm, minImportance := some cimp } st.shortTerm).1).map
          (fun y => y.id)).contains e.id then e.recordAccess now else e, ?_, ?_, ?_, ?_⟩
    · rw [hshort, hs1e]
      refine List.mem_filter.mpr ⟨List.mem_map_of_mem _ he, ?_⟩
      split <;> simpa using hnotin
    · split <;> simp
    · split <;> simp
    · split <;> simp

theorem c1_consolidation_amended_witness :
    (∃ d ∈ (MemoryManager.consolidate failsOnB MemoryImportance.high 50
        mgrStateConsol).2.longTerm.entries,
      d.mtype = MemoryType.longTerm ∧ d.content = entryShortHighA.content ∧
      d.metadata.importance = entryShortHighA.metadata.importance ∧
      d.metadata.tags = entryShortHighA.metadata.tags) ∧
    (¬ ∃ x ∈ (MemoryManager.consolidate failsOnB MemoryImportance.high 50
        mgrStateConsol).2.shortTerm.entries, x.id = entryShortHighA.id) ∧
    (∃ x ∈ (MemoryManager.consolidate failsOnB MemoryImportance.high 50
        mgrStateConsol).2.shortTerm.entries,
      x.id = entryShortCritB.id ∧ x.mtype = entryShortCritB.mtype ∧
      x.content = entryShortCritB.content ∧
      x.metadata.importance = entryShortCritB.metadata.importance ∧
      x.metadata.tags = entryShortCritB.metadata.tags) := by
  have hA := ((c1_consolidation_amended failsOnB MemoryImportance.high 50 mgrStateConsol
    (by decide) entryShortHighA (by decide)).1 rfl (by decide)).1 (by decide)
  have hB := ((c1_consolidation_amended failsOnB MemoryImportance.high 50 mgrStateConsol
    (by decide) entryShortCritB (by decide)).1 rfl (by decide)).2 (by decide)
  exact ⟨hA.1, hA.2, hB⟩

theorem WFMem.mono {t now : Nat} {st : InMemState} (h : WFMem t st) (hle : t ≤ now) :
    WFMem now st :=
  ⟨h.nodup, h.fresh, h.created_le_accessed,
    fun e he => Nat.le_trans (h.accessed_le e he) hle⟩

theorem WFMem_map_bump (t now : Nat) (st : InMemState) (h : WFMem t st) (hle : t ≤ now)
    (f : MemoryEntry → MemoryEntry)
    (hf : ∀ e, f e = e ∨ f e = e.recordAccess now) :
    WFMem now { entries := st.entries.map f, nextId := st.nextId } := by
  have hfid : ∀ e, (f e).id = e.id := by
    intro e
    rcases hf e with h1 | h1 <;> rw [h1] <;> simp
  have hids : (st.entries.map f).map MemoryEntry.id = st.entries.map MemoryEntry.id := by
    rw [List.map_map]
    exact List.map_congr_left (fun e _ => hfid e)
  refine ⟨?_, ?_, ?_, ?_⟩
  · simpa [hids] using h.nodup
  · intro x hx
    obtain ⟨e, he, hfe⟩ := List.mem_map.mp hx
    obtain ⟨k, hk1, hk2⟩ := h.fresh e he
    exact ⟨k, by rw [← hfe, hfid, hk1], hk2⟩
  · intro x hx
    obtain ⟨e, he, hfe⟩ := List.mem_map.mp hx
    rcases hf e with h1 | h1
    · rw [← hfe, h1]
      exact h.created_le_accessed e he
    · rw [← hfe, h1]
      simp only [recordAccess_createdAt, recordAccess_accessedAt]
      exact Nat.le_trans (Nat.le_trans (h.created_le_accessed e he) (h.accessed_le e he)) hle
  · intro x hx
    obtain ⟨e, he, hfe⟩ := List.mem_map.mp hx
    rcases hf e with h1 | h1
    · rw [← hfe, h1]
      exact Nat.le_trans (h.accessed_le e he) hle
    · rw [← hfe, h1]
      simp

theorem WFMem_step (t now : Nat) (op : MemOp) (st : InMemState)
    (h : WFMem t st) (hle : t ≤ now) : WFMem now (stepOp now op st) := by
  cases op with
  | storeOp ty c imp tg =>
    refine ⟨?_, ?_, ?_, ?_⟩
    · simp only [stepOp, InMemoryMemoryStore.store, List.map_append, List.map_cons,
        List.map_nil]
      rw [List.nodup_append]
      refine ⟨h.nodup, List.nodup_singleton _, ?_⟩
      intro a ha hb
      simp only [List.mem_singleton] at hb
      subst hb
      obtain ⟨e, he, hesub⟩ := List.mem_map.mp ha
      obtain ⟨k, hk1, hk2⟩ := h.fresh e he
      have hkk : memId k = memId st.nextId := by rw [← hk1, hesub]
      have := memId_injective hkk
      omega
    · intro e he
      simp only [stepOp, InMemoryMemoryStore.store, List.mem_append,
        List.mem_singleton] at he
      rcases he with he | he
      · obtain ⟨k, hk1, hk2⟩ := h.fresh e he
        exact ⟨k, hk1, by simp [stepOp, InMemoryMemoryStore.store]; omega⟩
      · subst he
        exact ⟨st.nextId, rfl, by simp [stepOp, InMemoryMemoryStore.store]⟩
    · intro e he
      simp only [stepOp, InMemoryMemoryStore.store, List.mem_append,
        List.mem_singleton] at he
      rcases he with he | he
      · exact h.created_le_accessed e he
      · subst he
        exact Nat.le_refl now
    · intro e he
      simp only [stepOp, InMemoryMemoryStore.store, List.mem_append,
        List.mem_singleton] at he
      rcases he with he | he
      · exact Nat.le_trans (h.accessed_le e he) hle
      · subst he
        exact Nat.le_refl now
  | retrieveOp rid =>
    cases hfind : st.entries.find? (fun x => x.id == rid) with
    | none =>
      have : stepOp now (MemOp.retrieveOp rid) st = st := by
        simp [stepOp, InMemoryMemoryStore.retrieve, hfind]
      rw [this]
      exact h.mono hle
    | some y =>
      have : stepOp now (MemOp.retrieveOp rid) st =
          { entries := st.entries.map
              (fun x => if x.id == rid then x.recordAccess now else x)
            nextId := st.nextId } := by
        simp [stepOp, InMemoryMemoryStore.retrieve, hfind]
      rw [this]
      exact WFMem_map_bump t now st h hle _
        (fun e => by split <;> simp)
  | queryOp q =>
    have : stepOp now (MemOp.queryOp q) st =
        { entries := (InMemoryMemoryStore.query now q st).2.entries
          nextId := (InMemoryMemoryStore.query now q st).2.nextId } := rfl
    rw [this]
    have hsnd := inMem_query_snd now q st
    have hnid : (InMemoryMemoryStore.query now q st).2.nextId = st.nextId := rfl
    rw [hsnd, hnid]
    exact WFMem_map_bump t now st h hle _ (fun e => by split <;> simp)

theorem step_find (t now : Nat) (op : MemOp) (st : InMemState) (id : String)
    (e : MemoryEntry) (h : WFMem t st) (hle : t ≤ now)
    (hf : st.entries.find? (fun x => x.id == id) = some e) :
    ∃ e2, (stepOp now op st).entries.find? (fun x => x.id == id) = some e2 ∧
      e2.metadata.accessCount = e.metadata.accessCount + opHits id now op st ∧
      e.metadata.accessedAt ≤ e2.metadata.accessedAt := by
  have heid : e.id = id := by simpa using List.find?_some hf
  have hemem : e ∈ st.entries := List.mem_of_find?_eq_some hf
  have hacc : e.metadata.accessedAt ≤ now := Nat.le_trans (h.accessed_le e hemem) hle
  cases op with
  | storeOp ty c imp tg =>
    refine ⟨e, ?_, ?_, Nat.le_refl _⟩
    · simp only [stepOp, InMemoryMemoryStore.store]
      rw [List.find?_append, hf]
      rfl
    · simp [opHits]
  | retrieveOp rid =>
    cases hfind : st.entries.find? (fun x => x.id == rid) with
    | none =>
      have hstep : stepOp now (MemOp.retrieveOp rid) st = st := by
        simp [stepOp, InMemoryMemoryStore.retrieve, hfind]
      have hne : (rid == id) = false := by
        cases hbe : (rid == id)
        · rfl
        · have : rid = id := by simpa using hbe
          rw [this] at hfind
          rw [hfind] at hf
          cases hf
      refine ⟨e, by rw [hstep]; exact hf, ?_, Nat.le_refl _⟩
      simp [opHits, hne]
    | some y =>
      have hstep : (stepOp now (MemOp.retrieveOp rid) st).entries =
          st.entries.map (fun x => if x.id == rid then x.recordAccess now else x) := by
        simp [stepOp, InMemoryMemoryStore.retrieve, hfind]
      rw [hstep, find?_id_map_of_preserved (fun x => by split <;> simp), hf]
      have hmape : Option.map (fun x => if x.id == rid then x.recordAccess now else x) (some e) =
          some (if e.id == rid then e.recordAccess now else e) := rfl
      rw [hmape]
      by_cases hr : (rid == id) = true
      · have hre : rid = id := by simpa using hr
        have hcond : (e.id == rid) = true := by
          rw [heid, hre]
          simp
        rw [if_pos hcond]
        have hany : st.entries.any (fun x => x.id == id) = true :=
          List.any_eq_true.mpr ⟨e, hemem, by simp [heid]⟩
        have hop : opHits id now (MemOp.retrieveOp rid) st = 1 := by
          simp only [opHits]
          rw [if_pos (by rw [hr, hany]; rfl)]
        exact ⟨e.recordAccess now, rfl, by simp [hop], by simpa using hacc⟩
      · have hcond : (e.id == rid) = false := by
          cases hbe : (e.id == rid)
          · rfl
          · have h1 : e.id = rid := by simpa using hbe
            have : (rid == id) = true := by
              rw [← h1, heid]
              simp
            exact absurd this hr
        rw [if_neg (by rw [hcond]; exact Bool.false_ne_true)]
        have hrf : (rid == id) = false := by
          cases hbe : (rid == id)
          · rfl
          · exact absurd hbe hr
        have hop : opHits id now (MemOp.retrieveOp rid) st = 0 := by
          simp only [opHits]
          rw [if_neg (by rw [hrf]; exact Bool.false_ne_true)]
        exact ⟨e, rfl, by simp [hop], Nat.le_refl _⟩
  | queryOp q =>
    have hstep : (stepOp now (MemOp.queryOp q) st).entries =
        st.entries.map (fun x =>
          if (((InMemoryMemoryStore.query now q st).1).map (fun y => y.id)).contains x.id
          then x.recordAccess now else x) := by
      simpa [stepOp] using inMem_query_snd now q st
    rw [hstep, find?_id_map_of_preserved (fun x => by split <;> simp), hf]
    have hmape : Option.map (fun x =>
        if (((InMemoryMemoryStore.query now q st).1).map (fun y => y.id)).contains x.id
        then x.recordAccess now else x) (some e) =
        some (if (((InMemoryMemoryStore.query now q st).1).map (fun y => y.id)).contains e.id
        then e.recordAccess now else e) := rfl
    rw [hmape]
    by_cases hc : (((InMemoryMemoryStore.query now q st).1).map (fun y => y.id)).contains id = true
    · have hcond : (((InMemoryMemoryStore.query now q st).1).map
          (fun y => y.id)).contains e.id = true := by rw [heid]; exact hc
      rw [if_pos hcond]
      have hop : opHits id now (MemOp.queryOp q) st = 1 := by
        simp only [opHits]
        rw [if_pos hc]
      exact ⟨e.recordAccess now, rfl, by simp [hop], by simpa using hacc⟩
    · have hcf : (((InMemoryMemoryStore.query now q st).1).map
          (fun y => y.id)).contains id = false := by
        cases hbe : (((InMemoryMemoryStore.query now q st).1).map (fun y => y.id)).contains id
        · rfl
        · exact absurd hbe hc
      have hcond : (((InMemoryMemoryStore.query now q st).1).map
          (fun y => y.id)).contains e.id = false := by rw [heid]; exact hcf
      rw [if_neg (by rw [hcond]; exact Bool.false_ne_true)]
      have hop : opHits id now (MemOp.queryOp q) st = 0 := by
        simp only [opHits]
        rw [if_neg (by rw [hcf]; exact Bool.false_ne_true)]
      exact ⟨e, rfl, by simp [hop], Nat.le_refl _⟩

/-- C7: across every sequence of store/retrieve/query operations with
non-decreasing operation times over a well-formed store, `accessedAt`
stays at or above `createdAt` for every entry, and an entry present at the
start is present at the end with its `accessCount` equal to the starting
count plus the number of retrieve/query hits on it, its `accessedAt`
monotonically non-decreasing (so `accessCount` never decreases). -/
theorem c7_access_metadata :
    ∀ (trace : List (Nat × MemOp)) (st : InMemState) (t : Nat),
      WFMem t st → TimesChain t trace →
      (∀ x ∈ (runOps trace st).entries, x.metadata.createdAt ≤ x.metadata.accessedAt) ∧
      (∀ id e, st.entries.find? (fun x => x.id == id) = some e →
        ∃ e2, (runOps trace st).entries.find? (fun x => x.id == id) = some e2 ∧
          e2.metadata.accessCount = e.metadata.accessCount + traceHits id trace st ∧
          e.metadata.accessedAt ≤ e2.metadata.accessedAt) := by
  intro trace
  induction trace with
  | nil =>
    intro st t h _
    exact ⟨h.created_le_accessed,
      fun id e hf => ⟨e, hf, by simp [traceHits], Nat.le_refl _⟩⟩
  | cons p rest ih =>
    intro st t h hch
    obtain ⟨now, op⟩ := p
    obtain ⟨hle, hch2⟩ := hch
    have h2 : WFMem now (stepOp now op st) := WFMem_step t now op st h hle
    obtain ⟨ih1, ih2⟩ := ih (stepOp now op st) now h2 hch2
    refine ⟨ih1, ?_⟩
    intro id e hf
    obtain ⟨e2, hf2, hc2, ha2⟩ := step_find t now op st id e h hle hf
    obtain ⟨e3, hf3, hc3, ha3⟩ := ih2 id e2 hf2
    refine ⟨e3, hf3, ?_, Nat.le_trans ha2 ha3⟩
    rw [hc3, hc2]
    simp [traceHits]
    omega

theorem c7_access_metadata_witness :
    ∃ e2, (runOps traceAccess mStateAccess).entries.find?
        (fun x => x.id == memId 1) = some e2 ∧
      e2.metadata.accessCount =
        entryAccess.metadata.accessCount + traceHits (memId 1) traceAccess mStateAccess ∧
      entryAccess.metadata.accessedAt ≤ e2.metadata.accessedAt := by
  have hwf : WFMem 3 mStateAccess := by
    refine ⟨by decide, ?_, by decide, by decide⟩
    intro e he
    simp only [mStateAccess, List.mem_singleton] at he
    subst he
    exact ⟨1, rfl, by decide⟩
  exact (c7_access_metadata traceAccess mStateAccess 3 hwf
    ⟨by omega, by omega, trivial⟩).2 (memId 1) entryAccess rfl

end Emissary
